import Mathlib

/-!
# VpngateClient: session supervisor

A shallow embedding of `cmd/connect.go` (the `connect` command, the liveness
monitor and the status-file parser) and of `pkg/vpn/client.go` (`Connect`),
followed by theorems about them.

Conventions of the embedding:

* a Go `string` is a `List Char`;
* a Go `int` that is only compared is an `Int`; `strconv.Atoi` carries the
  64-bit range check explicitly;
* a `time.Time` is an `Int` count of nanoseconds on the monotonic clock;
* a text read through a `bufio.Scanner` is the list of its lines, and the
  scanner's 64 KiB token limit is part of the model (`scannerTokens`);
* everything the program reads from its environment (process output, the
  shared liveness flag, random draws, operator input, file-system results) is
  an explicit argument.
-/

namespace Vpngate

/-- A Go string, as its sequence of characters. -/
abbrev Str := List Char

/-! ## Liveness monitor (`monitorOpenVPNStatus`) -/

/-- The local variables of `monitorOpenVPNStatus` together with the package
variable `isVpnAlive` it writes. -/
structure MonitorState where
  lastTunReadBytes : Int
  lastTunWriteBytes : Int
  lastCheckedTime : Int
  isVpnAlive : Bool
  deriving DecidableEq, Repr

/-- Nanoseconds in `time.Second`. -/
def nsPerSecond : Int := 1000000000

/-- The test `duration.Seconds() > 20` of line 232, on a duration in
nanoseconds.  `Duration.Seconds` is `float64(d / Second) + float64(d % Second) / 1e9`;
both summands are exact for every `int64` duration and the sum exceeds `20.0`
exactly when the duration exceeds twenty seconds. -/
def secondsGT20 (duration : Int) : Bool := decide (duration > 20 * nsPerSecond)

/-- One iteration of the `for` loop of `monitorOpenVPNStatus` (lines 215-239)
in which `getTunBytes` returned without error.  `now` is the value of the one
clock read of the iteration (`time.Now()` on line 229 or `time.Since` on
line 231).  The second component tells whether
`showNotification("vpn服务器", "连接断开")` was called. -/
def monitorStep (st : MonitorState) (currentTunReadBytes currentTunWriteBytes : Int)
    (now : Int) : MonitorState × Bool :=
  if currentTunReadBytes ≠ st.lastTunReadBytes ∨ currentTunWriteBytes ≠ st.lastTunWriteBytes then
    ({ lastTunReadBytes := currentTunReadBytes
       lastTunWriteBytes := currentTunWriteBytes
       lastCheckedTime := now
       isVpnAlive := true }, false)
  else
    if secondsGT20 (now - st.lastCheckedTime) then
      ({ st with isVpnAlive := false }, true)
    else
      (st, false)

/-- A successful poll: the pair of counters read and the time of the poll. -/
structure Poll where
  read : Int
  write : Int
  now : Int
  deriving DecidableEq, Repr

/-- Successive iterations of the polling loop; returns the final state and, for
each poll in order, whether the "disconnected" notification was emitted. -/
def monitorRun : MonitorState → List Poll → MonitorState × List Bool
  | st, [] => (st, [])
  | st, p :: ps =>
    let r := monitorStep st p.read p.write p.now
    let rest := monitorRun r.1 ps
    (rest.1, r.2 :: rest.2)

/-- Fourteen polls two seconds apart, from 2 s to 28 s, all reading the
counters (1000, 1000). -/
def quietPolls : List Poll :=
  (List.range 14).map (fun k => ⟨1000, 1000, (2 * ((k : Int) + 1)) * nsPerSecond⟩)

/-! ## Status-file parser (`getTunBytes`) -/

/-- Go's `strings.Split(line, ",")`: the fields between commas; never empty,
and one field more than there are commas. -/
def stringsSplitComma : Str → List Str
  | [] => [[]]
  | c :: cs =>
    if c = ',' then [] :: stringsSplitComma cs
    else
      match stringsSplitComma cs with
      | [] => [[c]]
      | f :: fs => (c :: f) :: fs

/-- The value of an ASCII digit (`ch -= '0'; if ch > 9` in `strconv`). -/
def digitValue (c : Char) : Option Nat :=
  if '0' ≤ c ∧ c ≤ '9' then some (c.toNat - '0'.toNat) else none

/-- The digit loop of `strconv.Atoi`: `n = n*10 + digit`, failing on the first
character that is not a digit. -/
def parseDigits : Str → Nat → Option Nat
  | [], n => some n
  | c :: cs, n =>
    match digitValue c with
    | none => none
    | some d => parseDigits cs (n * 10 + d)

/-- Largest value of a Go `int` on a 64-bit platform. -/
def maxInt : Int := 2 ^ 63 - 1

/-- Smallest value of a Go `int` on a 64-bit platform. -/
def minInt : Int := -(2 ^ 63)

/-- Go's `strconv.Atoi` (base 10, 64-bit `int`): an optional sign, at least one
digit, nothing else, and a value within the range of `int`; `none` stands for
the syntax or range error. -/
def Atoi (s : Str) : Option Int :=
  let neg : Bool := s.head? = some '-'
  let body : Str := if s.head? = some '-' ∨ s.head? = some '+' then s.tail else s
  if body = [] then none
  else
    match parseDigits body 0 with
    | none => none
    | some n =>
      let v : Int := if neg then -(n : Int) else (n : Int)
      if minInt ≤ v ∧ v ≤ maxInt then some v else none

deriving instance DecidableEq for Except

/-- The two ways `getTunBytes` returns an error: `os.Open` failed, or
`strconv.Atoi` failed on a labelled value. -/
inductive ReadError
  | notFound
  | malformedCounter
  deriving DecidableEq, Repr

/-- The label compared on line 257. -/
def readLabel : Str := "TUN/TAP read bytes".toList

/-- The label compared on line 263. -/
def writeLabel : Str := "TUN/TAP write bytes".toList

/-- One of the two `if fields[0] == label` blocks (lines 257-262 and 263-268):
the counter is overwritten with the parsed value when the label matches, and a
parse error makes `getTunBytes` return it. -/
def assignCounter (label f0 f1 : Str) (current : Int) : Except ReadError Int :=
  if f0 = label then
    match Atoi f1 with
    | none => .error .malformedCounter
    | some v => .ok v
  else .ok current

/-- The body of the `for scanner.Scan()` loop of `getTunBytes` (lines 253-270)
over the successive values of `scanner.Text()`, from the current values of the
two counters. -/
def scanLines : List Str → Int → Int → Except ReadError (Int × Int)
  | [], tunReadBytes, tunWriteBytes => .ok (tunReadBytes, tunWriteBytes)
  | line :: rest, tunReadBytes, tunWriteBytes =>
    match stringsSplitComma line with
    | [f0, f1] =>
      match assignCounter readLabel f0 f1 tunReadBytes with
      | .error e => .error e
      | .ok r =>
        match assignCounter writeLabel f0 f1 tunWriteBytes with
        | .error e => .error e
        | .ok w => scanLines rest r w
    | _ => scanLines rest tunReadBytes tunWriteBytes

/-- The length of a Go string in bytes: the sizes of the UTF-8 encodings of its
characters. -/
def byteLength (s : Str) : Nat := (s.map Char.utf8Size).sum

/-- Go's `bufio.MaxScanTokenSize`, the size of the largest buffer a
`bufio.Scanner` made by `bufio.NewScanner` allocates. -/
def maxScanTokenSize : Nat := 65536

/-- The function `dropCR` of `bufio`: one trailing carriage return is removed
from a line. -/
def dropCR (data : Str) : Str :=
  if data.getLast? = some '\r' then data.dropLast else data

/-- The values of `scanner.Text()` over the iterations of a
`for scanner.Scan()` loop, for a `bufio.Scanner` with the default split
function and buffer, as the code makes it.  The input is the text as its
lines: the pieces that a newline character ends, without that character, and
the final unterminated piece if there is one.  A line shorter than
`maxScanTokenSize` bytes is delivered without its trailing carriage return.  At
a line of `maxScanTokenSize` bytes or more the buffer is full before the
newline is found: `Scan` returns false (the error is `ErrTooLong`) and the loop
ends; neither that line nor any later one is delivered. -/
def scannerTokens : List Str → List Str
  | [] => []
  | line :: rest =>
    if byteLength line < maxScanTokenSize then dropCR line :: scannerTokens rest else []

/-- The function `getTunBytes` (lines 243-273) on the content of the status
file: `none` when the file cannot be opened, else its lines as `scannerTokens`
takes them.  `scanner.Err()` is never read, so after an over-long line the
counters read so far are returned with a nil error. -/
def getTunBytes (file : Option (List Str)) : Except ReadError (Int × Int) :=
  match file with
  | none => .error .notFound
  | some lines => scanLines (scannerTokens lines) 0 0

/-! ### What a well-formed status artifact is

These definitions follow the wording of the specification, not the code: they
say which lines carry a counter and which lines are extraneous. -/

/-- A non-empty string of ASCII digits. -/
def isDecimal (ds : Str) : Bool := !ds.isEmpty && ds.all Char.isDigit

/-- The number a string of digits denotes. -/
def decimalValue (ds : Str) : Nat := ds.foldl (fun n c => n * 10 + (c.toNat - 48)) 0

/-- The integer on a line of the form `<label>,<decimal>` with the decimal
within the range of `int`; `none` for a line of any other form. -/
def counterOnLine (label line : Str) : Option Int :=
  if line.take (label.length + 1) = label ++ [','] ∧
      isDecimal (line.drop (label.length + 1)) = true ∧
      (decimalValue (line.drop (label.length + 1)) : Int) ≤ maxInt then
    some (decimalValue (line.drop (label.length + 1)) : Int)
  else none

/-- A line that is not made of exactly two comma-separated fields, or whose
first field is neither of the two labels. -/
def isExtraneous (line : Str) : Bool :=
  decide (line.count ',' ≠ 1) ||
    (decide (line.takeWhile (fun c => c ≠ ',') ≠ readLabel) &&
      decide (line.takeWhile (fun c => c ≠ ',') ≠ writeLabel))

/-- The value the specification assigns to a label: the integer on the line
carrying the label, zero when no line carries it. -/
def specCounter (label : Str) (lines : List Str) : Int :=
  ((lines.filterMap (counterOnLine label)).head?).getD 0

/-- The shape required of every line of a well-formed artifact: a counter line
for one of the two labels, or an extraneous line. -/
def lineShape (line : Str) : Prop :=
  (counterOnLine readLabel line).isSome ∨ (counterOnLine writeLabel line).isSome ∨
    isExtraneous line = true

instance : DecidablePred lineShape := fun line =>
  inferInstanceAs (Decidable ((counterOnLine readLabel line).isSome ∨
    (counterOnLine writeLabel line).isSome ∨ isExtraneous line = true))

/-- A well-formed artifact: every line has the required shape and each label
is carried by at most one line. -/
def WellFormedArtifact (lines : List Str) : Prop :=
  (∀ line ∈ lines, lineShape line) ∧
  (lines.filterMap (counterOnLine readLabel)).length ≤ 1 ∧
  (lines.filterMap (counterOnLine writeLabel)).length ≤ 1

instance : DecidablePred WellFormedArtifact := fun lines =>
  inferInstanceAs (Decidable ((∀ line ∈ lines, lineShape line) ∧
    (lines.filterMap (counterOnLine readLabel)).length ≤ 1 ∧
    (lines.filterMap (counterOnLine writeLabel)).length ≤ 1))

/-- A status file as OpenVPN writes it, the write counter before the read
counter, among lines the parser ignores. -/
def sampleArtifact : List Str :=
  ["OpenVPN STATISTICS".toList, "Updated,2024-01-01 00:00:00".toList,
   "TUN/TAP write bytes,2048".toList, "TCP/UDP read bytes,77".toList,
   "TUN/TAP read bytes,1000".toList, "END".toList]

/-- A status file whose first line is 65536 bytes long, followed by the line
of the read counter. -/
def longLineArtifact : List Str :=
  [List.replicate 65536 'x', "TUN/TAP read bytes,1000".toList]

/-- A status file with Windows line ends: every line keeps its carriage
return when the text is cut at the newline characters. -/
def crlfArtifact : List Str :=
  ["OpenVPN STATISTICS\r".toList, "TUN/TAP read bytes,1000\r".toList,
   "TUN/TAP write bytes,2048\r".toList, "END\r".toList]

/-! ## Process controller (`vpn.Connect`) -/

/-- Go's `strings.Contains(s, substr)`. -/
def stringsContains : Str → Str → Bool
  | [], substr => substr.isEmpty
  | c :: cs, substr => substr.isPrefixOf (c :: cs) || stringsContains cs substr

/-- What one call of `vpn.Connect` meets in its environment, in the order the
function consults it. -/
structure ProcessEnv where
  /-- Whether `os.CreateTemp` for the log file (line 20) succeeds. -/
  createTempOk : Bool
  /-- Whether `exec.LookPath(executable)` (line 67) succeeds. -/
  lookPathOk : Bool
  /-- Whether `OpenVPNCmd.StdoutPipe()` (line 76) succeeds. -/
  stdoutPipeOk : Bool
  /-- Whether `OpenVPNCmd.StderrPipe()` (line 81) succeeds. -/
  stderrPipeOk : Bool
  /-- Whether `OpenVPNCmd.Start()` (line 86) succeeds. -/
  startOk : Bool
  /-- The text the process writes to its standard output before it ends, as
  its lines (see `scannerTokens`). -/
  stdout : List Str
  /-- Whether `OpenVPNCmd.Wait()` (line 106) returns nil: the exit status is 0. -/
  waitOk : Bool

/-- The non-nil errors `Connect` returns. -/
inductive ConnectError
  | createTemp
  | start
  | wait
  deriving DecidableEq, Repr

/-- How a call of `Connect` ends: it returns an error value (`none` is nil), or
it ends the program (`os.Exit(1)` on line 70, `log.Fatal` on lines 78 and 83). -/
inductive ConnectResult
  | returned (err : Option ConnectError)
  | exited
  deriving DecidableEq, Repr

/-- The marker searched on line 101. -/
def handshakeMarker : Str := "Initialization Sequence Completed".toList

/-- The body of the `for scanner.Scan()` loop of `Connect` (lines 98-105) over
the successive values of `scanner.Text()`: whether it returns nil from inside
the loop. -/
def scanStdout : List Str → Bool
  | [] => false
  | line :: rest => if stringsContains line handshakeMarker then true else scanStdout rest

/-- The function `vpn.Connect` (lines 19-112 of `pkg/vpn/client.go`).  The
scanner of line 97 delivers the lines of the output up to the first over-long
one (`scannerTokens`); `scanner.Err()` is never read.  The `return err` of
line 111 returns the variable assigned on line 81, which is nil there. -/
def Connect (p : ProcessEnv) : ConnectResult :=
  if !p.createTempOk then .returned (some .createTemp)
  else if !p.lookPathOk then .exited
  else if !p.stdoutPipeOk then .exited
  else if !p.stderrPipeOk then .exited
  else if !p.startOk then .returned (some .start)
  else if scanStdout (scannerTokens p.stdout) then .returned none
  else if !p.waitOk then .returned (some .wait)
  else .returned none

/-- A process that could be started: every step of `Connect` before the output
scan succeeded. -/
def ProcessEnv.started (p : ProcessEnv) : Prop :=
  p.createTempOk = true ∧ p.lookPathOk = true ∧ p.stdoutPipeOk = true ∧
    p.stderrPipeOk = true ∧ p.startOk = true

instance : DecidablePred ProcessEnv.started := fun p =>
  inferInstanceAs (Decidable (p.createTempOk = true ∧ p.lookPathOk = true ∧
    p.stdoutPipeOk = true ∧ p.stderrPipeOk = true ∧ p.startOk = true))

/-- A started process with the given output and exit status. -/
def processOf (stdout : List Str) (waitOk : Bool) : ProcessEnv :=
  { createTempOk := true, lookPathOk := true, stdoutPipeOk := true, stderrPipeOk := true,
    startOk := true, stdout := stdout, waitOk := waitOk }

/-! ## Session supervisor (`connectCmd.Run`) -/

/-- Modelled from the spec: the type `vpn.Server`, declared in a file of
package `vpn` that is not among the sources; the fields are those
`connect.go` reads. -/
structure Server where
  HostName : Str
  IPAddr : Str
  CountryLong : Str
  CountryShort : Str
  OpenVpnConfigData : Str
  deriving DecidableEq, Repr

/-- The zero value `vpn.Server{}` of line 54. -/
instance : Inhabited Server := ⟨⟨[], [], [], [], []⟩⟩

/-- What one iteration of the failover loop meets in its environment. -/
structure AttemptEnv where
  /-- The value of `rand.Intn(len(*vpnServers))` (line 101), before reduction
  to the range. -/
  randIntn : Nat
  /-- Whether `os.CreateTemp` (line 110) succeeds. -/
  createTempOk : Bool
  /-- Whether `tmpfile.Write` (line 116) succeeds. -/
  writeOk : Bool
  /-- Whether `tmpfile.Close` (line 121) succeeds. -/
  closeOk : Bool
  /-- The environment of the call of `vpn.Connect` (line 128). -/
  process : ProcessEnv
  /-- The value of `isVpnAlive` read on line 144. -/
  aliveAtConnect : Bool
  /-- The value of `isVpnAlive` read on line 146, after the sleep. -/
  aliveAfterGrace : Bool

/-- The inputs of one run of `connectCmd.Run`. -/
structure RunEnv where
  flagRandom : Bool
  flagReconnect : Bool
  /-- The result of `vpn.GetList` (line 47); `none` is an error. -/
  getList : Option (List Server)
  /-- The positional arguments of the command. -/
  args : List Str
  /-- The answer of `survey.AskOne` (line 71); `none` is an error. -/
  survey : Option Str
  /-- Whether `base64.StdEncoding.DecodeString` accepts a payload. -/
  base64Ok : Str → Bool
  /-- The environment of the iteration with loop variable `i`. -/
  attempt : Nat → AttemptEnv
  /-- The lines read from standard input before its end. -/
  commands : List Str
  /-- Go's `strings.ToLower`. -/
  toLower : Str → Str
  /-- Whether `vpn.Disconnect()` on line 169 returns nil. -/
  disconnectOk : Bool

/-- The conditions on which the run ends the program with `log.Fatal` or
`os.Exit(1)`. -/
inductive Fatal
  | getList
  | survey
  | serverNotFound
  | decode
  | createTemp
  | write
  | close
  | connectExit
  | disconnect
  deriving DecidableEq, Repr

/-- How a run ends: `Run` returns, the program is ended with status 1, or the
command loop spins on an exhausted standard input and the run never ends. -/
inductive Outcome
  | returned
  | fatal (why : Fatal)
  | stdinExhausted
  deriving DecidableEq, Repr

/-- The exit status of the program, when it ends. -/
def exitStatus : Outcome → Option Nat
  | .returned => some 0
  | .fatal _ => some 1
  | .stdinExhausted => none

/-- The effects of a run that the claims are about. -/
inductive Event
  /-- A configuration file was created by `os.CreateTemp` (line 110). -/
  | createTemp
  /-- A call of `vpn.Connect` in iteration `i` for `server` (line 128). -/
  | connect (i : Nat) (server : Server)
  /-- A call of `vpn.Disconnect` after the grace check (line 147). -/
  | disconnect
  /-- The command loop was entered in iteration `i` (line 161). -/
  | monitoring (i : Nat)
  deriving DecidableEq, Repr

/-- The outcome of a run and its effects in order. -/
structure RunResult where
  outcome : Outcome
  events : List Event
  deriving DecidableEq, Repr

/-- The effects `es` followed by the run `r`. -/
def RunResult.after (es : List Event) (r : RunResult) : RunResult :=
  { outcome := r.outcome, events := es ++ r.events }

/-- The loop of lines 79-83: `serverSelected` after the loop, from its value
before. -/
def lookupServer (selection : Str) : List Server → Server → Server
  | [], serverSelected => serverSelected
  | s :: rest, serverSelected =>
    lookupServer selection rest
      (if stringsContains selection s.HostName then s else serverSelected)

/-- The loop of lines 91-95 from position `i` on: `serverSelectedIndex` after
the loop, from its value before. -/
def serverSelectedIndexFrom (selection : Str) : List Server → Nat → Nat → Nat
  | [], _, serverSelectedIndex => serverSelectedIndex
  | s :: rest, i, serverSelectedIndex =>
    serverSelectedIndexFrom selection rest (i + 1)
      (if stringsContains selection s.HostName then i else serverSelectedIndex)

/-- The value of `serverSelectedIndex` when the failover loop starts (lines
90-95). -/
def serverSelectedIndex (selection : Str) (vpnServers : List Server) : Nat :=
  serverSelectedIndexFrom selection vpnServers 0 0

/-- The value of `selection` after lines 60-76, or the reason the run ended
there. -/
def chooseSelection (env : RunEnv) : Except Fatal Str :=
  if env.flagRandom then .ok []
  else
    match env.args with
    | a :: _ => .ok a
    | [] =>
      match env.survey with
      | none => .error .survey
      | some s => .ok s

/-- Whether the command is one of the cases `"q", "quit"` of line 167. -/
def isQuit (env : RunEnv) (command : Str) : Bool :=
  decide (env.toLower command = "q".toList) || decide (env.toLower command = "quit".toList)

/-- The command loop (lines 161-194).  `status` and unknown commands change
nothing the outcome depends on; at the end of the input `scanner.Text()` is
empty on every further iteration and the loop never ends. -/
def commandLoop (env : RunEnv) : List Str → Outcome
  | [] => .stdinExhausted
  | command :: rest =>
    if isQuit env command then
      if env.disconnectOk then .returned else .fatal .disconnect
    else commandLoop env rest

/-- The value of `serverSelected` in iteration `i` (lines 97-102). -/
def pickServer (env : RunEnv) (vpnServers : List Server) (i : Nat) : Server :=
  if env.flagRandom then
    vpnServers.getD ((env.attempt i).randIntn % vpnServers.length) default
  else vpnServers.getD i default

/-- The failover loop (lines 96-196) from loop variable `i`, where
`remaining` is `len(*vpnServers) - i`: the loop condition `i < len(*vpnServers)`
is `remaining > 0`, and when it fails `Run` returns.  On line 148 `err` is the
nil error of `vpn.Connect`, so the `log.Fatal` of line 149 is never reached. -/
def failoverLoop (env : RunEnv) (vpnServers : List Server) : Nat → Nat → RunResult
  | 0, _ => { outcome := .returned, events := [] }
  | remaining + 1, i =>
    let a := env.attempt i
    let serverSelected := pickServer env vpnServers i
    if !env.base64Ok serverSelected.OpenVpnConfigData then
      { outcome := .fatal .decode, events := [] }
    else if !a.createTempOk then
      { outcome := .fatal .createTemp, events := [] }
    else if !a.writeOk then
      { outcome := .fatal .write, events := [.createTemp] }
    else if !a.closeOk then
      { outcome := .fatal .close, events := [.createTemp] }
    else
      match Connect a.process with
      | .exited =>
        { outcome := .fatal .connectExit, events := [.createTemp, .connect i serverSelected] }
      | .returned (some _) =>
        if env.flagReconnect then
          { outcome := .returned, events := [.createTemp, .connect i serverSelected] }
        else
          (failoverLoop env vpnServers remaining (i + 1)).after
            [.createTemp, .connect i serverSelected]
      | .returned none =>
        if !a.aliveAtConnect && !a.aliveAfterGrace then
          (failoverLoop env vpnServers remaining (i + 1)).after
            [.createTemp, .connect i serverSelected, .disconnect]
        else
          { outcome := commandLoop env env.commands
            events := [.createTemp, .connect i serverSelected, .monitoring i] }

/-- The function `connectCmd.Run` (lines 46-197). -/
def Run (env : RunEnv) : RunResult :=
  match env.getList with
  | none => { outcome := .fatal .getList, events := [] }
  | some vpnServers =>
    match chooseSelection env with
    | .error why => { outcome := .fatal why, events := [] }
    | .ok selection =>
      if !env.flagRandom && (lookupServer selection vpnServers default).HostName = [] then
        { outcome := .fatal .serverNotFound, events := [] }
      else
        failoverLoop env vpnServers
          (vpnServers.length - serverSelectedIndex selection vpnServers)
          (serverSelectedIndex selection vpnServers)

/-- The calls of `vpn.Connect` among the effects of a run: the loop variable
and the server passed, in order. -/
def connectCalls : List Event → List (Nat × Server)
  | [] => []
  | .connect i s :: rest => (i, s) :: connectCalls rest
  | _ :: rest => connectCalls rest

/-- The attempt of iteration `i` succeeds: `vpn.Connect` returns nil and the
liveness flag is set at the grace check. -/
def attemptSucceeds (env : RunEnv) (i : Nat) : Prop :=
  Connect (env.attempt i).process = .returned none ∧
    ((env.attempt i).aliveAtConnect = true ∨ (env.attempt i).aliveAfterGrace = true)

instance (env : RunEnv) : DecidablePred (attemptSucceeds env) := fun i =>
  inferInstanceAs (Decidable (Connect (env.attempt i).process = .returned none ∧
    ((env.attempt i).aliveAtConnect = true ∨ (env.attempt i).aliveAfterGrace = true)))

/-- The steps of iteration `i` before the call of `vpn.Connect` all succeed:
the payload decodes and the configuration file is created, written and
closed (lines 104-124). -/
def prepOk (env : RunEnv) (vpnServers : List Server) (i : Nat) : Prop :=
  env.base64Ok (pickServer env vpnServers i).OpenVpnConfigData = true ∧
    (env.attempt i).createTempOk = true ∧ (env.attempt i).writeOk = true ∧
    (env.attempt i).closeOk = true

instance (env : RunEnv) (vpnServers : List Server) : DecidablePred (prepOk env vpnServers) :=
  fun i => inferInstanceAs (Decidable (
    env.base64Ok (pickServer env vpnServers i).OpenVpnConfigData = true ∧
    (env.attempt i).createTempOk = true ∧ (env.attempt i).writeOk = true ∧
    (env.attempt i).closeOk = true))

/-- The attempt of iteration `i` fails without ending the program: the call of
`vpn.Connect` is reached and returns, and the attempt does not succeed. -/
def attemptFails (env : RunEnv) (vpnServers : List Server) (i : Nat) : Prop :=
  prepOk env vpnServers i ∧ Connect (env.attempt i).process ≠ .exited ∧
    ¬ attemptSucceeds env i

instance (env : RunEnv) (vpnServers : List Server) :
    DecidablePred (attemptFails env vpnServers) :=
  fun i => inferInstanceAs (Decidable (prepOk env vpnServers i ∧
    Connect (env.attempt i).process ≠ .exited ∧ ¬ attemptSucceeds env i))

/-- No iteration meets a condition that ends the program: for every value of
the loop variable the payload decodes, the configuration file can be written,
and `vpn.Connect` returns. -/
def noFatal (env : RunEnv) (vpnServers : List Server) : Prop :=
  ∀ i, i < vpnServers.length →
    env.base64Ok (pickServer env vpnServers i).OpenVpnConfigData = true ∧
    (env.attempt i).createTempOk = true ∧ (env.attempt i).writeOk = true ∧
    (env.attempt i).closeOk = true ∧ Connect (env.attempt i).process ≠ .exited

instance (env : RunEnv) : DecidablePred (noFatal env) := fun vpnServers =>
  inferInstanceAs (Decidable (∀ i, i < vpnServers.length →
    env.base64Ok (pickServer env vpnServers i).OpenVpnConfigData = true ∧
    (env.attempt i).createTempOk = true ∧ (env.attempt i).writeOk = true ∧
    (env.attempt i).closeOk = true ∧ Connect (env.attempt i).process ≠ .exited))

/-! ### Concrete inputs -/

/-- A server known by its host name only. -/
def serverNamed (name : String) : Server :=
  { HostName := name.toList, IPAddr := [], CountryLong := [], CountryShort := [],
    OpenVpnConfigData := [] }

/-- An iteration in which the configuration file is written and the process
behaves as given. -/
def attemptOf (p : ProcessEnv) (alive : Bool) : AttemptEnv :=
  { randIntn := 0, createTempOk := true, writeOk := true, closeOk := true, process := p,
    aliveAtConnect := alive, aliveAfterGrace := alive }

/-- A process that ends with a non-zero status without printing the marker. -/
def failingProcess : ProcessEnv := processOf ["Exiting due to fatal error".toList] false

/-- A process that prints the marker. -/
def connectingProcess : ProcessEnv :=
  processOf ["Initialization Sequence Completed".toList] true

/-- ASCII lower-casing, which is what `strings.ToLower` does on ASCII input. -/
def asciiToLower (s : Str) : Str := s.map Char.toLower

/-- Scenario A: two servers, the first named on the command line, the flag
`--reconnect` set; the first connection fails, the second would succeed. -/
def scenarioA : RunEnv :=
  { flagRandom := false, flagReconnect := true
    getList := some [serverNamed "S1", serverNamed "S2"]
    args := ["S1".toList], survey := none, base64Ok := fun _ => true
    attempt := fun i => if i = 0 then attemptOf failingProcess false
      else attemptOf connectingProcess true
    commands := ["quit".toList], toLower := asciiToLower, disconnectOk := true }

/-- Two servers, the host name of the first contained in that of the second. -/
def ambiguousServers : List Server := [serverNamed "vpn1", serverNamed "vpn12"]

/-- A run on `ambiguousServers` with `vpn12` named on the command line; every
connection succeeds and the operator quits at once. -/
def ambiguousRun : RunEnv :=
  { flagRandom := false, flagReconnect := false
    getList := some ambiguousServers
    args := ["vpn12".toList], survey := none, base64Ok := fun _ => true
    attempt := fun _ => attemptOf connectingProcess true
    commands := ["q".toList], toLower := asciiToLower, disconnectOk := true }

/-- The position of the first server that matches the selection, in the words
of the specification ("find the first candidate whose identifier matches"). -/
def firstMatchIndex (selection : Str) (vpnServers : List Server) : Nat :=
  vpnServers.findIdx (fun s => stringsContains selection s.HostName)

/-- A run with one server, named on the command line, whose connection fails;
nothing is typed on standard input. -/
def allFailRun : RunEnv :=
  { flagRandom := false, flagReconnect := false
    getList := some [serverNamed "S1"]
    args := ["S1".toList], survey := none, base64Ok := fun _ => true
    attempt := fun _ => attemptOf failingProcess false
    commands := [], toLower := asciiToLower, disconnectOk := true }

/-- A run with the flag `--random` on two servers; every draw is 0 and every
connection fails. -/
def randomRun : RunEnv :=
  { flagRandom := true, flagReconnect := false
    getList := some [serverNamed "A", serverNamed "B"]
    args := [], survey := none, base64Ok := fun _ => true
    attempt := fun _ => attemptOf failingProcess false
    commands := [], toLower := asciiToLower, disconnectOk := true }

/-- A run on three servers with the second named on the command line; the
second connection fails, the third succeeds, the operator quits. -/
def failoverRun : RunEnv :=
  { flagRandom := false, flagReconnect := false
    getList := some [serverNamed "S1", serverNamed "S2", serverNamed "S3"]
    args := ["S2".toList], survey := none, base64Ok := fun _ => true
    attempt := fun i => if i = 2 then attemptOf connectingProcess true
      else attemptOf failingProcess false
    commands := ["quit".toList], toLower := asciiToLower, disconnectOk := true }

/-- A run on two servers with a name on the command line that matches
neither. -/
def unknownServerRun : RunEnv :=
  { flagRandom := false, flagReconnect := false
    getList := some [serverNamed "S1", serverNamed "S2"]
    args := ["S3".toList], survey := none, base64Ok := fun _ => true
    attempt := fun _ => attemptOf connectingProcess true
    commands := ["quit".toList], toLower := asciiToLower, disconnectOk := true }

/-- A process that prints the marker on a line of more than 65536 bytes and
ends with a non-zero status. -/
def longLineProcess : ProcessEnv :=
  processOf [List.replicate 65536 'x' ++ "Initialization Sequence Completed".toList] false

/-- A run on two servers with the first named on the command line; the first
connection fails and the payload of the second server is not base64 (it holds
the character `!`). -/
def badPayloadRun : RunEnv :=
  { flagRandom := false, flagReconnect := false
    getList := some [serverNamed "S1",
      { HostName := "S2".toList, IPAddr := [], CountryLong := [], CountryShort := [],
        OpenVpnConfigData := "!".toList }]
    args := ["S1".toList], survey := none
    base64Ok := fun payload => payload.all (fun c => c != '!')
    attempt := fun _ => attemptOf failingProcess false
    commands := [], toLower := asciiToLower, disconnectOk := true }

/-! ## Theorems: liveness monitor -/

/-- A poll that reads a pair different from the stored one stores the pair and
the time of the poll and sets the flag. -/
lemma monitorStep_changed (st : MonitorState) (r w now : Int)
    (h : r ≠ st.lastTunReadBytes ∨ w ≠ st.lastTunWriteBytes) :
    monitorStep st r w now = (⟨r, w, now, true⟩, false) := by
  unfold monitorStep
  rw [if_pos h]

/-- A poll that reads the stored pair leaves the pair and the time of the last
change as they are; it clears the flag and notifies when more than twenty
seconds have passed since that time, and changes nothing otherwise. -/
lemma monitorStep_quiet (st : MonitorState) (now : Int) :
    monitorStep st st.lastTunReadBytes st.lastTunWriteBytes now =
      if now - st.lastCheckedTime > 20 * nsPerSecond then
        ({ st with isVpnAlive := false }, true)
      else (st, false) := by
  unfold monitorStep secondsGT20
  by_cases hd : now - st.lastCheckedTime > 20 * nsPerSecond
  · simp [hd]
  · simp [hd]

/-- Over polls that all read the stored pair, the pair and the time of the last
change stay as they are, and the flag is cleared as soon as one poll comes more
than twenty seconds after that time. -/
lemma monitorRun_quiet (st : MonitorState) (polls : List Poll)
    (hq : ∀ p ∈ polls, p.read = st.lastTunReadBytes ∧ p.write = st.lastTunWriteBytes) :
    (monitorRun st polls).1 =
      { st with isVpnAlive := st.isVpnAlive &&
          !(polls.any (fun p => decide (p.now - st.lastCheckedTime > 20 * nsPerSecond))) } := by
  induction polls generalizing st with
  | nil => simp [monitorRun]
  | cons p ps ih =>
    obtain ⟨hr, hw⟩ := hq p (List.mem_cons_self _ _)
    have hps : ∀ q ∈ ps, q.read = st.lastTunReadBytes ∧ q.write = st.lastTunWriteBytes :=
      fun q hq2 => hq q (List.mem_cons_of_mem _ hq2)
    simp only [monitorRun, List.any_cons]
    rw [hr, hw, monitorStep_quiet]
    by_cases hd : p.now - st.lastCheckedTime > 20 * nsPerSecond
    · rw [if_pos hd]
      simp only []
      rw [ih { st with isVpnAlive := false } hps]
      simp [hd]
    · rw [if_neg hd]
      simp only []
      rw [ih st hps]
      simp [hd]

/-- C7: for an alive monitor, a poll turns the flag to dead exactly when both
counters equal the last observed pair and more than twenty seconds have passed
since the last observed change; it never does so within twenty seconds; and a
poll on which a counter is greater than its last observed value leaves the flag
alive and resets the last-change time to the time of the poll.  The step keeps
what these statements rely on: a poll that reads a different pair stores that
pair and its own time; a poll that reads the same pair leaves the stored pair
and the time of the last change untouched and changes the flag only by
clearing it after twenty seconds; so over any run of polls reading the same
pair the stored pair and time stay put and the flag is dead from the first poll
that comes more than twenty seconds after the last change. -/
theorem monitorStep_liveness (st : MonitorState) (r w now : Int) :
    (st.isVpnAlive = true →
      ((monitorStep st r w now).1.isVpnAlive = false ↔
        (r = st.lastTunReadBytes ∧ w = st.lastTunWriteBytes ∧
          now - st.lastCheckedTime > 20 * nsPerSecond))) ∧
    (st.isVpnAlive = true → now - st.lastCheckedTime ≤ 20 * nsPerSecond →
      (monitorStep st r w now).1.isVpnAlive = true) ∧
    (r > st.lastTunReadBytes ∨ w > st.lastTunWriteBytes →
      (monitorStep st r w now).1.isVpnAlive = true ∧
      (monitorStep st r w now).1.lastCheckedTime = now) ∧
    (r ≠ st.lastTunReadBytes ∨ w ≠ st.lastTunWriteBytes →
      monitorStep st r w now = (⟨r, w, now, true⟩, false)) ∧
    (r = st.lastTunReadBytes ∧ w = st.lastTunWriteBytes →
      (monitorStep st r w now).1.lastTunReadBytes = st.lastTunReadBytes ∧
      (monitorStep st r w now).1.lastTunWriteBytes = st.lastTunWriteBytes ∧
      (monitorStep st r w now).1.lastCheckedTime = st.lastCheckedTime ∧
      (now - st.lastCheckedTime > 20 * nsPerSecond →
        (monitorStep st r w now).1.isVpnAlive = false) ∧
      (now - st.lastCheckedTime ≤ 20 * nsPerSecond →
        (monitorStep st r w now).1.isVpnAlive = st.isVpnAlive)) ∧
    (∀ polls : List Poll,
      (∀ p ∈ polls, p.read = st.lastTunReadBytes ∧ p.write = st.lastTunWriteBytes) →
      (monitorRun st polls).1.lastTunReadBytes = st.lastTunReadBytes ∧
      (monitorRun st polls).1.lastTunWriteBytes = st.lastTunWriteBytes ∧
      (monitorRun st polls).1.lastCheckedTime = st.lastCheckedTime ∧
      ((∃ p ∈ polls, p.now - st.lastCheckedTime > 20 * nsPerSecond) →
        (monitorRun st polls).1.isVpnAlive = false) ∧
      ((∀ p ∈ polls, p.now - st.lastCheckedTime ≤ 20 * nsPerSecond) →
        (monitorRun st polls).1.isVpnAlive = st.isVpnAlive)) ∧
    20 * nsPerSecond = 20000000000 := by
  refine ⟨fun hAlive => ?_, fun hAlive hle => ?_, fun hinc => ?_, monitorStep_changed st r w now,
    ?_, fun polls hq => ?_, by decide⟩
  · unfold monitorStep secondsGT20
    by_cases hch : r ≠ st.lastTunReadBytes ∨ w ≠ st.lastTunWriteBytes
    · rw [if_pos hch]
      constructor
      · intro h; simp at h
      · rintro ⟨h1, h2, -⟩
        rcases hch with h | h
        · exact absurd h1 h
        · exact absurd h2 h
    · rw [if_neg hch]
      have hr : r = st.lastTunReadBytes := by
        by_contra h; exact hch (Or.inl h)
      have hw : w = st.lastTunWriteBytes := by
        by_contra h; exact hch (Or.inr h)
      by_cases hd : now - st.lastCheckedTime > 20 * nsPerSecond
      · simp [hd, hr, hw]
      · simp [hd, hAlive]
  · unfold monitorStep secondsGT20
    have hd : ¬ now - st.lastCheckedTime > 20 * nsPerSecond := not_lt.mpr hle
    by_cases hch : r ≠ st.lastTunReadBytes ∨ w ≠ st.lastTunWriteBytes
    · rw [if_pos hch]
    · rw [if_neg hch]; simp [hd, hAlive]
  · have hch : r ≠ st.lastTunReadBytes ∨ w ≠ st.lastTunWriteBytes := by
      rcases hinc with h | h
      · exact Or.inl (ne_of_gt h)
      · exact Or.inr (ne_of_gt h)
    rw [monitorStep_changed st r w now hch]
    exact ⟨rfl, rfl⟩
  · rintro ⟨rfl, rfl⟩
    rw [monitorStep_quiet]
    by_cases hd : now - st.lastCheckedTime > 20 * nsPerSecond
    · rw [if_pos hd]
      exact ⟨rfl, rfl, rfl, fun _ => rfl, fun hle => absurd hd (not_lt.mpr hle)⟩
    · rw [if_neg hd]
      exact ⟨rfl, rfl, rfl, fun h => absurd h hd, fun _ => rfl⟩
  · rw [monitorRun_quiet st polls hq]
    refine ⟨rfl, rfl, rfl, ?_, ?_⟩
    · rintro ⟨p, hp, hd⟩
      have : polls.any (fun p => decide (p.now - st.lastCheckedTime > 20 * nsPerSecond))
          = true := List.any_eq_true.2 ⟨p, hp, by simpa using hd⟩
      simp [this]
    · intro hall
      have : polls.any (fun p => decide (p.now - st.lastCheckedTime > 20 * nsPerSecond))
          = false := by
        rw [List.any_eq_false]
        intro p hp
        simpa using hall p hp
      simp [this]

/-- C7, at a concrete input: an alive monitor at counters (1000, 1000) last
changed at time 0, polled at 21 s and at 20 s with the same counters and at 5 s
with a larger read counter; and the same monitor over fourteen polls two
seconds apart that read the same counters: the stored pair and time are kept
and the flag is dead at the end. -/
theorem monitorStep_liveness_witness :
    ((monitorStep ⟨1000, 1000, 0, true⟩ 1000 1000 (21 * nsPerSecond)).1.isVpnAlive = false ↔
        ((1000 : Int) = 1000 ∧ (1000 : Int) = 1000 ∧
          21 * nsPerSecond - 0 > 20 * nsPerSecond)) ∧
    (monitorStep ⟨1000, 1000, 0, true⟩ 1000 1000 (20 * nsPerSecond)).1.isVpnAlive = true ∧
    ((monitorStep ⟨1000, 1000, 0, true⟩ 1001 1000 (5 * nsPerSecond)).1.isVpnAlive = true ∧
      (monitorStep ⟨1000, 1000, 0, true⟩ 1001 1000 (5 * nsPerSecond)).1.lastCheckedTime
        = 5 * nsPerSecond) ∧
    monitorStep ⟨1000, 1000, 0, false⟩ 999 1000 (25 * nsPerSecond) =
      (⟨999, 1000, 25 * nsPerSecond, true⟩, false) ∧
    ((monitorRun ⟨1000, 1000, 0, true⟩ quietPolls).1.lastCheckedTime = 0 ∧
      (monitorRun ⟨1000, 1000, 0, true⟩ quietPolls).1.isVpnAlive = false) :=
  ⟨(monitorStep_liveness ⟨1000, 1000, 0, true⟩ 1000 1000 (21 * nsPerSecond)).1 rfl,
   (monitorStep_liveness ⟨1000, 1000, 0, true⟩ 1000 1000 (20 * nsPerSecond)).2.1 rfl
     (by decide),
   (monitorStep_liveness ⟨1000, 1000, 0, true⟩ 1001 1000 (5 * nsPerSecond)).2.2.1
     (Or.inl (by decide)),
   (monitorStep_liveness ⟨1000, 1000, 0, false⟩ 999 1000 (25 * nsPerSecond)).2.2.2.1
     (Or.inl (by decide)),
   ⟨((monitorStep_liveness ⟨1000, 1000, 0, true⟩ 1000 1000 0).2.2.2.2.2.1 quietPolls
       (by decide)).2.2.1,
    ((monitorStep_liveness ⟨1000, 1000, 0, true⟩ 1000 1000 0).2.2.2.2.2.1 quietPolls
       (by decide)).2.2.2.1 ⟨⟨1000, 1000, 22 * nsPerSecond⟩, by decide, by decide⟩⟩⟩

/-- A poll with unchanged counters made more than twenty seconds after the last
observed change clears the flag and calls `showNotification`, whatever the flag
was before. -/
lemma monitorStep_stale (st : MonitorState) (now : Int)
    (h : now - st.lastCheckedTime > 20 * nsPerSecond) :
    monitorStep st st.lastTunReadBytes st.lastTunWriteBytes now =
      ({ st with isVpnAlive := false }, true) := by
  unfold monitorStep secondsGT20
  simp [h]

/-- A poll that clears the flag leaves counters and last-change time as they
were, found the counters unchanged and the timeout exceeded. -/
lemma monitorStep_dead_inv (st : MonitorState) (r w now : Int)
    (h : (monitorStep st r w now).1.isVpnAlive = false) (hAlive : st.isVpnAlive = true) :
    r = st.lastTunReadBytes ∧ w = st.lastTunWriteBytes ∧
      now - st.lastCheckedTime > 20 * nsPerSecond ∧
      monitorStep st r w now = ({ st with isVpnAlive := false }, true) := by
  unfold monitorStep secondsGT20 at h
  by_cases hch : r ≠ st.lastTunReadBytes ∨ w ≠ st.lastTunWriteBytes
  · rw [if_pos hch] at h
    simp at h
  · rw [if_neg hch] at h
    have hr : r = st.lastTunReadBytes := by
      by_contra hne; exact hch (Or.inl hne)
    have hw : w = st.lastTunWriteBytes := by
      by_contra hne; exact hch (Or.inr hne)
    by_cases hd : now - st.lastCheckedTime > 20 * nsPerSecond
    · subst hr; subst hw
      exact ⟨rfl, rfl, hd, monitorStep_stale st now hd⟩
    · simp [hd, hAlive] at h

/-- C1 (counterexample): an alive monitor at counters (1000, 1000), last changed
at time 0, is polled at 22 s and at 24 s with the counters unchanged.  The first
poll turns the flag from alive to dead and notifies; the second poll, with the
flag still dead and the counters still unchanged, notifies again. -/
theorem monitorRun_notifies_twice :
    (monitorStep ⟨1000, 1000, 0, true⟩ 1000 1000 (22 * nsPerSecond)) =
        (⟨1000, 1000, 0, false⟩, true) ∧
    (monitorStep ⟨1000, 1000, 0, false⟩ 1000 1000 (24 * nsPerSecond)) =
        (⟨1000, 1000, 0, false⟩, true) ∧
    monitorRun ⟨1000, 1000, 0, true⟩
        [⟨1000, 1000, 22 * nsPerSecond⟩, ⟨1000, 1000, 24 * nsPerSecond⟩] =
      (⟨1000, 1000, 0, false⟩, [true, true]) := by
  refine ⟨?_, ?_, ?_⟩ <;> decide

/-- C1 (amended): the poll that turns the flag from alive to dead emits the
"disconnected" notification, and every later poll emits it again as long as the
counters stay unchanged (the clock not running backwards): the state stays the
same, the flag stays dead, and `n` such polls emit `n` further notifications. -/
theorem monitorRun_notifies_every_stale_poll (st : MonitorState) (r w now : Int)
    (polls : List Poll)
    (hAlive : st.isVpnAlive = true)
    (hDead : (monitorStep st r w now).1.isVpnAlive = false)
    (hPolls : ∀ p ∈ polls, p.read = r ∧ p.write = w ∧ now ≤ p.now) :
    (monitorStep st r w now).2 = true ∧
    monitorRun (monitorStep st r w now).1 polls =
      ((monitorStep st r w now).1, List.replicate polls.length true) := by
  obtain ⟨hr, hw, hd, hstep⟩ := monitorStep_dead_inv st r w now hDead hAlive
  rw [hstep]
  refine ⟨rfl, ?_⟩
  induction polls with
  | nil => rfl
  | cons p ps ih =>
    have hp := hPolls p (List.mem_cons_self p ps)
    have hps : ∀ q ∈ ps, q.read = r ∧ q.write = w ∧ now ≤ q.now :=
      fun q hq => hPolls q (List.mem_cons_of_mem p hq)
    have hd2 : p.now - st.lastCheckedTime > 20 * nsPerSecond := by
      have := hp.2.2
      omega
    have hs := monitorStep_stale { st with isVpnAlive := false } p.now hd2
    simp only [monitorRun, List.length_cons, List.replicate_succ]
    rw [hp.1, hp.2.1, hr, hw]
    simp only [] at hs
    rw [hs]
    simp only [] at ih
    rw [ih hps]

/-- C1 (amended), at a concrete input: the transition poll at 22 s followed by
three more polls with the same counters. -/
theorem monitorRun_notifies_every_stale_poll_witness :
    (monitorStep ⟨1000, 1000, 0, true⟩ 1000 1000 (22 * nsPerSecond)).2 = true ∧
    monitorRun (monitorStep ⟨1000, 1000, 0, true⟩ 1000 1000 (22 * nsPerSecond)).1
        [⟨1000, 1000, 24 * nsPerSecond⟩, ⟨1000, 1000, 26 * nsPerSecond⟩,
         ⟨1000, 1000, 28 * nsPerSecond⟩] =
      ((monitorStep ⟨1000, 1000, 0, true⟩ 1000 1000 (22 * nsPerSecond)).1,
        List.replicate 3 true) :=
  monitorRun_notifies_every_stale_poll ⟨1000, 1000, 0, true⟩ 1000 1000 (22 * nsPerSecond)
    [⟨1000, 1000, 24 * nsPerSecond⟩, ⟨1000, 1000, 26 * nsPerSecond⟩,
     ⟨1000, 1000, 28 * nsPerSecond⟩]
    rfl (by decide) (by decide)

/-! ## Theorems: status-file parser -/

lemma stringsSplitComma_ne_nil (line : Str) : stringsSplitComma line ≠ [] := by
  induction line with
  | nil => simp [stringsSplitComma]
  | cons c cs ih =>
    unfold stringsSplitComma
    by_cases h : c = ','
    · simp [h]
    · simp only [h, if_false]
      split
      · simp
      · simp

lemma stringsSplitComma_no_comma (b : Str) (h : ',' ∉ b) : stringsSplitComma b = [b] := by
  induction b with
  | nil => rfl
  | cons c cs ih =>
    have hc : c ≠ ',' := fun e => h (e ▸ List.mem_cons_self _ _)
    have hcs : ',' ∉ cs := fun e => h (List.mem_cons_of_mem _ e)
    unfold stringsSplitComma
    simp [hc, ih hcs]

lemma stringsSplitComma_append (a b : Str) (h : ',' ∉ a) :
    stringsSplitComma (a ++ ',' :: b) = a :: stringsSplitComma b := by
  induction a with
  | nil => simp [stringsSplitComma]
  | cons c cs ih =>
    have hc : c ≠ ',' := fun e => h (e ▸ List.mem_cons_self _ _)
    have hcs : ',' ∉ cs := fun e => h (List.mem_cons_of_mem _ e)
    rw [List.cons_append, stringsSplitComma, if_neg hc, ih hcs]

lemma stringsSplitComma_length (line : Str) :
    (stringsSplitComma line).length = line.count ',' + 1 := by
  induction line with
  | nil => rfl
  | cons c cs ih =>
    unfold stringsSplitComma
    by_cases h : c = ','
    · subst h
      simp [ih]
    · have h' : (c == ',') = false := by simpa using h
      simp only [h, if_false]
      rw [List.count_cons, h']
      split
      · rename_i heq; exact absurd heq (stringsSplitComma_ne_nil cs)
      · rename_i f fs heq
        rw [heq] at ih
        simpa using ih

lemma stringsSplitComma_head (line : Str) :
    (stringsSplitComma line).head? = some (line.takeWhile (fun c => c ≠ ',')) := by
  induction line with
  | nil => rfl
  | cons c cs ih =>
    unfold stringsSplitComma
    by_cases h : c = ','
    · subst h
      simp
    · simp only [h, if_false]
      split
      · rename_i heq; exact absurd heq (stringsSplitComma_ne_nil cs)
      · rename_i f fs heq
        rw [heq] at ih
        simp at ih
        simp [List.takeWhile_cons, h, ih]

lemma digitValue_of_isDigit (c : Char) (h : c.isDigit = true) :
    digitValue c = some (c.toNat - 48) := by
  unfold digitValue
  have hc : '0' ≤ c ∧ c ≤ '9' := by
    simp only [Char.isDigit, Bool.and_eq_true, decide_eq_true_eq] at h
    exact ⟨h.1, h.2⟩
  rw [if_pos hc]
  rfl

lemma parseDigits_digits (ds : Str) (n : Nat) (h : ∀ c ∈ ds, c.isDigit = true) :
    parseDigits ds n = some (ds.foldl (fun n c => n * 10 + (c.toNat - 48)) n) := by
  induction ds generalizing n with
  | nil => rfl
  | cons c cs ih =>
    rw [parseDigits, digitValue_of_isDigit c (h c (List.mem_cons_self _ _))]
    simp only [List.foldl_cons]
    exact ih _ (fun d hd => h d (List.mem_cons_of_mem _ hd))

lemma isDecimal_iff (ds : Str) :
    isDecimal ds = true ↔ ds ≠ [] ∧ ∀ c ∈ ds, c.isDigit = true := by
  unfold isDecimal
  cases ds <;> simp

lemma Atoi_decimal (ds : Str) (hd : isDecimal ds = true)
    (hr : (decimalValue ds : Int) ≤ maxInt) : Atoi ds = some (decimalValue ds : Int) := by
  obtain ⟨hne, hall⟩ := (isDecimal_iff ds).1 hd
  obtain ⟨c, cs, rfl⟩ := List.exists_cons_of_ne_nil hne
  have hc : c.isDigit = true := hall c (List.mem_cons_self _ _)
  have h1 : c ≠ '-' := by rintro rfl; exact absurd hc (by decide)
  have h2 : c ≠ '+' := by rintro rfl; exact absurd hc (by decide)
  have hmin : minInt ≤ (decimalValue (c :: cs) : Int) := by
    have : minInt ≤ 0 := by decide
    omega
  unfold Atoi
  simp only [List.head?_cons, Option.some.injEq, h1, h2, or_self, if_false, decide_False]
  rw [if_neg hne, parseDigits_digits _ _ hall]
  simp only [Bool.false_eq_true, if_false]
  rw [if_pos ⟨hmin, hr⟩]
  rfl

lemma comma_not_mem_of_digits (ds : Str) (h : ∀ c ∈ ds, c.isDigit = true) : ',' ∉ ds :=
  fun hm => absurd (h _ hm) (by decide)

lemma counterOnLine_some (label line : Str) (n : Int) (hl : ',' ∉ label)
    (h : counterOnLine label line = some n) :
    ∃ ds, stringsSplitComma line = [label, ds] ∧ Atoi ds = some n := by
  unfold counterOnLine at h
  split at h
  · rename_i hc
    obtain ⟨htake, hdec, hrange⟩ := hc
    simp only [Option.some.injEq] at h
    refine ⟨line.drop (label.length + 1), ?_, ?_⟩
    · have hline : line = label ++ ',' :: line.drop (label.length + 1) := by
        conv_lhs => rw [← List.take_append_drop (label.length + 1) line, htake]
        simp
      have hno := comma_not_mem_of_digits _ ((isDecimal_iff _).1 hdec).2
      conv_lhs => rw [hline]
      rw [stringsSplitComma_append _ _ hl, stringsSplitComma_no_comma _ hno]
    · rw [← h]
      exact Atoi_decimal _ hdec hrange
  · exact absurd h (by simp)

lemma readLabel_no_comma : ',' ∉ readLabel := by decide
lemma writeLabel_no_comma : ',' ∉ writeLabel := by decide
lemma readLabel_ne_writeLabel : readLabel ≠ writeLabel := by decide

lemma isExtraneous_split (line f0 f1 : Str) (he : isExtraneous line = true)
    (hs : stringsSplitComma line = [f0, f1]) : f0 ≠ readLabel ∧ f0 ≠ writeLabel := by
  have hlen := stringsSplitComma_length line
  have hhead := stringsSplitComma_head line
  rw [hs] at hlen hhead
  simp only [List.length_cons, List.length_nil, List.head?_cons, Option.some.injEq] at hlen hhead
  have hcount : line.count ',' = 1 := by omega
  unfold isExtraneous at he
  simp only [hcount, ne_eq, not_true_eq_false, decide_False, Bool.false_or, Bool.and_eq_true,
    decide_eq_true_eq] at he
  rw [← hhead] at he
  exact he

lemma scanLines_cons_skip (line : Str) (rest : List Str) (r w : Int)
    (h : ∀ f0 f1, stringsSplitComma line = [f0, f1] → f0 ≠ readLabel ∧ f0 ≠ writeLabel) :
    scanLines (line :: rest) r w = scanLines rest r w := by
  rw [scanLines]
  split
  · rename_i f0 f1 heq
    obtain ⟨h1, h2⟩ := h f0 f1 heq
    simp [assignCounter, h1, h2]
  · rfl

lemma scanLines_cons_read (line : Str) (rest : List Str) (r w n : Int) (ds : Str)
    (hs : stringsSplitComma line = [readLabel, ds]) (ha : Atoi ds = some n) :
    scanLines (line :: rest) r w = scanLines rest n w := by
  rw [scanLines, hs]
  simp [assignCounter, ha, readLabel_ne_writeLabel]

lemma scanLines_cons_write (line : Str) (rest : List Str) (r w n : Int) (ds : Str)
    (hs : stringsSplitComma line = [writeLabel, ds]) (ha : Atoi ds = some n) :
    scanLines (line :: rest) r w = scanLines rest r n := by
  rw [scanLines, hs]
  simp [assignCounter, ha, Ne.symm readLabel_ne_writeLabel]

lemma counterOnLine_read_write (line : Str) (n : Int)
    (h : counterOnLine readLabel line = some n) : counterOnLine writeLabel line = none := by
  cases hw : counterOnLine writeLabel line with
  | none => rfl
  | some m =>
    obtain ⟨ds, hs, -⟩ := counterOnLine_some _ _ _ readLabel_no_comma h
    obtain ⟨ds2, hs2, -⟩ := counterOnLine_some _ _ _ writeLabel_no_comma hw
    rw [hs] at hs2
    exact absurd (List.cons.inj hs2).1 readLabel_ne_writeLabel

lemma counterOnLine_write_read (line : Str) (n : Int)
    (h : counterOnLine writeLabel line = some n) : counterOnLine readLabel line = none := by
  cases hr : counterOnLine readLabel line with
  | none => rfl
  | some m => rw [counterOnLine_read_write line m hr] at h; exact absurd h (by simp)

lemma counterOnLine_extraneous (line : Str) (he : isExtraneous line = true) :
    counterOnLine readLabel line = none ∧ counterOnLine writeLabel line = none := by
  constructor
  · cases hr : counterOnLine readLabel line with
    | none => rfl
    | some m =>
      obtain ⟨ds, hs, -⟩ := counterOnLine_some _ _ _ readLabel_no_comma hr
      exact absurd rfl (isExtraneous_split line _ _ he hs).1
  · cases hw : counterOnLine writeLabel line with
    | none => rfl
    | some m =>
      obtain ⟨ds, hs, -⟩ := counterOnLine_some _ _ _ writeLabel_no_comma hw
      exact absurd rfl (isExtraneous_split line _ _ he hs).2

lemma scanLines_ok (lines : List Str) (r w : Int) (h : ∀ line ∈ lines, lineShape line) :
    scanLines lines r w =
      .ok ((lines.filterMap (counterOnLine readLabel)).foldl (fun _ v => v) r,
           (lines.filterMap (counterOnLine writeLabel)).foldl (fun _ v => v) w) := by
  induction lines generalizing r w with
  | nil => rfl
  | cons line rest ih =>
    have hrest : ∀ l ∈ rest, lineShape l := fun l hl => h l (List.mem_cons_of_mem _ hl)
    rcases h line (List.mem_cons_self _ _) with hr | hw | he
    · obtain ⟨n, hn⟩ := Option.isSome_iff_exists.1 hr
      obtain ⟨ds, hs, ha⟩ := counterOnLine_some _ _ _ readLabel_no_comma hn
      rw [scanLines_cons_read line rest r w n ds hs ha, ih n w hrest,
        List.filterMap_cons_some hn, List.filterMap_cons_none (counterOnLine_read_write line n hn)]
      rfl
    · obtain ⟨n, hn⟩ := Option.isSome_iff_exists.1 hw
      obtain ⟨ds, hs, ha⟩ := counterOnLine_some _ _ _ writeLabel_no_comma hn
      rw [scanLines_cons_write line rest r w n ds hs ha, ih r n hrest,
        List.filterMap_cons_some hn, List.filterMap_cons_none (counterOnLine_write_read line n hn)]
      rfl
    · obtain ⟨h1, h2⟩ := counterOnLine_extraneous line he
      rw [scanLines_cons_skip line rest r w (fun f0 f1 hs => isExtraneous_split line f0 f1 he hs),
        ih r w hrest, List.filterMap_cons_none h1, List.filterMap_cons_none h2]

lemma foldl_last_of_length_le_one (l : List Int) (d : Int) (h : l.length ≤ 1) :
    l.foldl (fun _ v => v) d = l.head?.getD d := by
  match l, h with
  | [], _ => rfl
  | [a], _ => rfl

lemma perm_eq_of_length_le_one {α : Type} (l l' : List α) (hp : l'.Perm l) (h : l.length ≤ 1) :
    l' = l := by
  match l, h with
  | [], _ => exact List.Perm.eq_nil hp
  | [a], _ => exact List.perm_singleton.1 hp

lemma specCounter_of_mem (label : Str) (lines : List Str)
    (hone : (lines.filterMap (counterOnLine label)).length ≤ 1) (line : Str) (hm : line ∈ lines)
    (n : Int) (hn : counterOnLine label line = some n) : specCounter label lines = n := by
  have hmem : n ∈ lines.filterMap (counterOnLine label) := List.mem_filterMap.2 ⟨line, hm, hn⟩
  unfold specCounter
  match hl : lines.filterMap (counterOnLine label), hone with
  | [], _ => rw [hl] at hmem; exact absurd hmem (List.not_mem_nil _)
  | [a], _ =>
    rw [hl] at hmem
    simp at hmem
    simp [hmem]

lemma specCounter_of_absent (label : Str) (lines : List Str)
    (h : ∀ line ∈ lines, counterOnLine label line = none) : specCounter label lines = 0 := by
  have : lines.filterMap (counterOnLine label) = [] := by
    rw [List.filterMap_eq_nil_iff]
    exact h
  simp [specCounter, this]

lemma byteLength_replicate (n : Nat) (c : Char) :
    byteLength (List.replicate n c) = n * c.utf8Size := by
  simp [byteLength, List.map_replicate, List.sum_replicate]

lemma scannerTokens_short (lines : List Str)
    (h : ∀ l ∈ lines, byteLength l < maxScanTokenSize) :
    scannerTokens lines = lines.map dropCR := by
  induction lines with
  | nil => rfl
  | cons line rest ih =>
    rw [scannerTokens, if_pos (h line (List.mem_cons_self _ _)),
      ih (fun l hl => h l (List.mem_cons_of_mem _ hl))]
    rfl

/-- An over-long line ends the scan: it and every later line are not
delivered. -/
lemma scannerTokens_append_long (lines : List Str) (long : Str) (rest : List Str)
    (h : ∀ l ∈ lines, byteLength l < maxScanTokenSize)
    (hl : maxScanTokenSize ≤ byteLength long) :
    scannerTokens (lines ++ long :: rest) = lines.map dropCR := by
  induction lines with
  | nil =>
    rw [List.nil_append, scannerTokens, if_neg (by omega)]
    rfl
  | cons line more ih =>
    rw [List.cons_append, scannerTokens, if_pos (h line (List.mem_cons_self _ _)),
      ih (fun l hl => h l (List.mem_cons_of_mem _ hl))]
    rfl

lemma dropCR_of_counterOnLine (label line : Str) (n : Int)
    (h : counterOnLine label line = some n) : dropCR line = line := by
  unfold counterOnLine at h
  split at h
  · rename_i hc
    obtain ⟨htake, hdec, -⟩ := hc
    obtain ⟨hne, hall⟩ := (isDecimal_iff _).1 hdec
    have hline : line = (label ++ [',']) ++ line.drop (label.length + 1) := by
      conv_lhs => rw [← List.take_append_drop (label.length + 1) line, htake]
    have hlast : line.getLast? =
        some ((line.drop (label.length + 1)).getLast hne) := by
      conv_lhs => rw [hline]
      rw [List.getLast?_append, List.getLast?_eq_getLast _ hne]
      rfl
    have hdig := hall _ (List.getLast_mem hne)
    have hcr : line.getLast? ≠ some '\r' := by
      rw [hlast]
      intro hh
      rw [Option.some.injEq] at hh
      rw [hh] at hdig
      exact absurd hdig (by decide)
    unfold dropCR
    rw [if_neg hcr]
  · exact absurd h (by simp)

lemma takeWhile_append_of_exists {α : Type} (p : α → Bool) (l1 l2 : List α)
    (h : ∃ x ∈ l1, p x = false) : (l1 ++ l2).takeWhile p = l1.takeWhile p := by
  induction l1 with
  | nil =>
    obtain ⟨x, hx, -⟩ := h
    exact absurd hx (List.not_mem_nil _)
  | cons a l ih =>
    cases hpa : p a with
    | false => simp [List.takeWhile_cons, hpa]
    | true =>
      have h2 : ∃ x ∈ l, p x = false := by
        obtain ⟨x, hx, hpx⟩ := h
        rcases List.mem_cons.1 hx with rfl | hx2
        · rw [hpa] at hpx; exact absurd hpx (by decide)
        · exact ⟨x, hx2, hpx⟩
      simp [List.takeWhile_cons, hpa, ih h2]

lemma isExtraneous_dropCR (line : Str) (h : isExtraneous line = true) :
    isExtraneous (dropCR line) = true := by
  by_cases hcr : line.getLast? = some '\r'
  · obtain ⟨init, rfl⟩ := List.getLast?_eq_some_iff.1 hcr
    have hd : dropCR (init ++ ['\r']) = init := by
      unfold dropCR
      rw [if_pos hcr, List.dropLast_concat]
    rw [hd]
    have hcount : (init ++ ['\r']).count ',' = init.count ',' := by
      rw [List.count_append]
      have : ['\r'].count ',' = 0 := by decide
      omega
    unfold isExtraneous at h ⊢
    rw [hcount] at h
    by_cases hc : init.count ',' = 1
    · have hmem : ',' ∈ init := List.count_pos_iff.1 (by omega)
      have htw : (init ++ ['\r']).takeWhile (fun c => c ≠ ',') =
          init.takeWhile (fun c => c ≠ ',') :=
        takeWhile_append_of_exists _ _ _ ⟨',', hmem, by simp⟩
      rw [htw] at h
      exact h
    · simp [hc]
  · unfold dropCR
    rw [if_neg hcr]
    exact h

lemma lineShape_dropCR (line : Str) (h : lineShape line) :
    lineShape (dropCR line) ∧
      counterOnLine readLabel (dropCR line) = counterOnLine readLabel line ∧
      counterOnLine writeLabel (dropCR line) = counterOnLine writeLabel line := by
  rcases h with hr | hw | he
  · obtain ⟨n, hn⟩ := Option.isSome_iff_exists.1 hr
    rw [dropCR_of_counterOnLine _ _ _ hn]
    exact ⟨Or.inl hr, rfl, rfl⟩
  · obtain ⟨n, hn⟩ := Option.isSome_iff_exists.1 hw
    rw [dropCR_of_counterOnLine _ _ _ hn]
    exact ⟨Or.inr (Or.inl hw), rfl, rfl⟩
  · have he2 := isExtraneous_dropCR line he
    obtain ⟨a1, a2⟩ := counterOnLine_extraneous line he
    obtain ⟨b1, b2⟩ := counterOnLine_extraneous _ he2
    exact ⟨Or.inr (Or.inr he2), by rw [a1, b1], by rw [a2, b2]⟩

lemma filterMap_dropCR (lines : List Str) (h : ∀ l ∈ lines, lineShape l) :
    (lines.map dropCR).filterMap (counterOnLine readLabel) =
        lines.filterMap (counterOnLine readLabel) ∧
    (lines.map dropCR).filterMap (counterOnLine writeLabel) =
        lines.filterMap (counterOnLine writeLabel) := by
  induction lines with
  | nil => exact ⟨rfl, rfl⟩
  | cons line rest ih =>
    obtain ⟨-, e1, e2⟩ := lineShape_dropCR line (h line (List.mem_cons_self _ _))
    obtain ⟨i1, i2⟩ := ih (fun l hl => h l (List.mem_cons_of_mem _ hl))
    constructor
    · rw [List.map_cons, List.filterMap_cons, List.filterMap_cons, e1, i1]
    · rw [List.map_cons, List.filterMap_cons, List.filterMap_cons, e2, i2]

lemma getTunBytes_eq_spec (lines : List Str) (hs : ∀ l ∈ lines, byteLength l < maxScanTokenSize)
    (h : WellFormedArtifact lines) :
    getTunBytes (some lines) =
      .ok (specCounter readLabel lines, specCounter writeLabel lines) := by
  obtain ⟨hshape, hr, hw⟩ := h
  obtain ⟨e1, e2⟩ := filterMap_dropCR lines hshape
  have hshape2 : ∀ l ∈ lines.map dropCR, lineShape l := by
    intro l hl
    obtain ⟨raw, hraw, rfl⟩ := List.mem_map.1 hl
    exact (lineShape_dropCR raw (hshape raw hraw)).1
  simp only [getTunBytes]
  rw [scannerTokens_short lines hs, scanLines_ok _ 0 0 hshape2, e1, e2,
    foldl_last_of_length_le_one _ _ hr, foldl_last_of_length_le_one _ _ hw]
  rfl

lemma filterMap_filter_of_none {α β : Type} (f : α → Option β) (p : α → Bool) (l : List α)
    (h : ∀ x, p x = false → f x = none) : (l.filter p).filterMap f = l.filterMap f := by
  induction l with
  | nil => rfl
  | cons a l ih =>
    cases hp : p a with
    | true =>
      rw [List.filter_cons_of_pos (by simpa using hp)]
      cases hf : f a with
      | none => rw [List.filterMap_cons_none hf, List.filterMap_cons_none hf, ih]
      | some b => rw [List.filterMap_cons_some hf, List.filterMap_cons_some hf, ih]
    | false =>
      rw [List.filter_cons_of_neg (by simp [hp]), List.filterMap_cons_none (h a hp), ih]

lemma counterOnLine_filter (label : Str) (hl : label = readLabel ∨ label = writeLabel)
    (lines : List Str) :
    (lines.filter (fun l => !isExtraneous l)).filterMap (counterOnLine label) =
      lines.filterMap (counterOnLine label) := by
  apply filterMap_filter_of_none
  intro x hx
  have he : isExtraneous x = true := by simpa using hx
  rcases hl with rfl | rfl
  · exact (counterOnLine_extraneous x he).1
  · exact (counterOnLine_extraneous x he).2

lemma isExtraneous_of_no_comma (line : Str) (h : line.count ',' = 0) :
    isExtraneous line = true := by
  unfold isExtraneous
  rw [h]
  rfl

lemma longLine_extraneous : isExtraneous (List.replicate 65536 'x') = true := by
  apply isExtraneous_of_no_comma
  rw [List.count_replicate]
  rfl

/-- C8 (counterexample): a status file whose first line is 65536 bytes of `x`
and whose second line is `TUN/TAP read bytes,1000`.  The artifact is
well-formed (the long line has no comma, the read label is on one line of the
required form, the write label on none), so the claim gives 1000 for the read
counter; the scanner stops at the first line and `getTunBytes` returns
(0, 0) without an error. -/
theorem getTunBytes_long_line :
    WellFormedArtifact longLineArtifact ∧
    counterOnLine readLabel "TUN/TAP read bytes,1000".toList = some 1000 ∧
    specCounter readLabel longLineArtifact = 1000 ∧
    byteLength (List.replicate 65536 'x') = 65536 ∧
    getTunBytes (some longLineArtifact) = .ok (0, 0) := by
  have hx := counterOnLine_extraneous _ longLine_extraneous
  have hread : counterOnLine readLabel "TUN/TAP read bytes,1000".toList = some 1000 := by decide
  have hwrite : counterOnLine writeLabel "TUN/TAP read bytes,1000".toList = none := by decide
  have hlen : byteLength (List.replicate 65536 'x') = 65536 := by
    rw [byteLength_replicate]
    rfl
  have hfr : longLineArtifact.filterMap (counterOnLine readLabel) = [1000] := by
    rw [longLineArtifact, List.filterMap_cons_none hx.1, List.filterMap_cons_some hread]
    rfl
  have hfw : longLineArtifact.filterMap (counterOnLine writeLabel) = [] := by
    rw [longLineArtifact, List.filterMap_cons_none hx.2, List.filterMap_cons_none hwrite]
    rfl
  refine ⟨⟨?_, ?_, ?_⟩, hread, ?_, hlen, ?_⟩
  · intro line hl
    rw [longLineArtifact] at hl
    rcases List.mem_cons.1 hl with rfl | hl2
    · exact Or.inr (Or.inr longLine_extraneous)
    · rw [List.mem_singleton] at hl2
      rw [hl2]
      exact Or.inl (by rw [hread]; rfl)
  · rw [hfr]; decide
  · rw [hfw]; decide
  · rw [specCounter, hfr]; rfl
  · have htok : scannerTokens longLineArtifact = [] := by
      rw [longLineArtifact, scannerTokens, hlen]
      rfl
    simp only [getTunBytes]
    rw [htok]
    rfl

/-- C8 (amended): on a well-formed artifact (every line a counter line of one
of the two labels or an extraneous line, each label on at most one line) all of
whose lines are shorter than 65536 bytes, `getTunBytes` succeeds and returns
for each label the integer on its line, or 0 when no line carries the label; the
result is the same for every reordering of the lines and for every artifact of
lines shorter than 65536 bytes that differs in extraneous lines only.  A line
of 65536 bytes or more ends the scan: it and all lines after it are ignored. -/
theorem getTunBytes_wellFormed (lines : List Str)
    (hs : ∀ l ∈ lines, byteLength l < maxScanTokenSize) (h : WellFormedArtifact lines) :
    getTunBytes (some lines) =
      .ok (specCounter readLabel lines, specCounter writeLabel lines) ∧
    (∀ line ∈ lines, ∀ n, counterOnLine readLabel line = some n →
      specCounter readLabel lines = n) ∧
    ((∀ line ∈ lines, counterOnLine readLabel line = none) → specCounter readLabel lines = 0) ∧
    (∀ line ∈ lines, ∀ n, counterOnLine writeLabel line = some n →
      specCounter writeLabel lines = n) ∧
    ((∀ line ∈ lines, counterOnLine writeLabel line = none) →
      specCounter writeLabel lines = 0) ∧
    (∀ lines2, lines2.Perm lines → getTunBytes (some lines2) = getTunBytes (some lines)) ∧
    (∀ lines2, (∀ l ∈ lines2, byteLength l < maxScanTokenSize) →
      lines2.filter (fun l => !isExtraneous l) = lines.filter (fun l => !isExtraneous l) →
      getTunBytes (some lines2) = getTunBytes (some lines)) ∧
    (∀ long rest, maxScanTokenSize ≤ byteLength long →
      getTunBytes (some (lines ++ long :: rest)) = getTunBytes (some lines)) ∧
    maxScanTokenSize = 65536 := by
  have hh := h
  obtain ⟨hshape, hr, hw⟩ := hh
  refine ⟨getTunBytes_eq_spec lines hs h,
    fun line hm n hn => specCounter_of_mem _ _ hr line hm n hn,
    specCounter_of_absent _ _, fun line hm n hn => specCounter_of_mem _ _ hw line hm n hn,
    specCounter_of_absent _ _, ?_, ?_, ?_, rfl⟩
  · intro lines2 hp
    have hpr := hp.filterMap (counterOnLine readLabel)
    have hpw := hp.filterMap (counterOnLine writeLabel)
    have er := perm_eq_of_length_le_one _ _ hpr hr
    have ew := perm_eq_of_length_le_one _ _ hpw hw
    have h2 : WellFormedArtifact lines2 :=
      ⟨fun l hl => hshape l (hp.mem_iff.1 hl), by rw [er]; exact hr, by rw [ew]; exact hw⟩
    have hs2 : ∀ l ∈ lines2, byteLength l < maxScanTokenSize :=
      fun l hl => hs l (hp.mem_iff.1 hl)
    rw [getTunBytes_eq_spec lines2 hs2 h2, getTunBytes_eq_spec lines hs h]
    simp only [specCounter, er, ew]
  · intro lines2 hs2 hf
    have er : lines2.filterMap (counterOnLine readLabel) =
        lines.filterMap (counterOnLine readLabel) := by
      rw [← counterOnLine_filter _ (Or.inl rfl) lines2, hf, counterOnLine_filter _ (Or.inl rfl)]
    have ew : lines2.filterMap (counterOnLine writeLabel) =
        lines.filterMap (counterOnLine writeLabel) := by
      rw [← counterOnLine_filter _ (Or.inr rfl) lines2, hf, counterOnLine_filter _ (Or.inr rfl)]
    have h2 : WellFormedArtifact lines2 := by
      refine ⟨fun l hl => ?_, by rw [er]; exact hr, by rw [ew]; exact hw⟩
      cases he : isExtraneous l with
      | true => exact Or.inr (Or.inr he)
      | false =>
        have : l ∈ lines2.filter (fun l => !isExtraneous l) :=
          List.mem_filter.2 ⟨hl, by simp [he]⟩
        rw [hf] at this
        have hx := hshape l (List.mem_filter.1 this).1
        simpa [lineShape, he] using hx
    rw [getTunBytes_eq_spec lines2 hs2 h2, getTunBytes_eq_spec lines hs h]
    simp only [specCounter, er, ew]
  · intro long rest hl
    simp only [getTunBytes]
    rw [scannerTokens_append_long lines long rest hs hl, scannerTokens_short lines hs]

/-- C8 (amended), at a concrete input: a status file with the write counter
before the read counter among four extraneous lines, and the same file
reversed. -/
theorem getTunBytes_wellFormed_witness :
    (∀ l ∈ sampleArtifact, byteLength l < maxScanTokenSize) ∧
    WellFormedArtifact sampleArtifact ∧ getTunBytes (some sampleArtifact) = .ok (1000, 2048) ∧
      getTunBytes (some sampleArtifact.reverse) = getTunBytes (some sampleArtifact) :=
  ⟨by decide, by decide,
   (getTunBytes_wellFormed sampleArtifact (by decide) (by decide)).1.trans (by decide),
   (getTunBytes_wellFormed sampleArtifact (by decide) (by decide)).2.2.2.2.2.1
     sampleArtifact.reverse (List.reverse_perm sampleArtifact)⟩

/-- A status file with Windows line ends is read like one without: the
scanner drops the carriage returns. -/
lemma getTunBytes_crlf : getTunBytes (some crlfArtifact) = .ok (1000, 2048) := by
  decide

/-! ## Theorems: process controller -/

lemma scanStdout_iff (lines : List Str) :
    scanStdout lines = true ↔ ∃ line ∈ lines, stringsContains line handshakeMarker = true := by
  induction lines with
  | nil => simp [scanStdout]
  | cons line rest ih =>
    rw [scanStdout]
    by_cases h : stringsContains line handshakeMarker = true
    · simp [h]
    · simp [h, ih]

/-- The scanner delivers the lines before the first over-long one, each
without its trailing carriage return. -/
lemma scannerTokens_eq_takeWhile (lines : List Str) :
    scannerTokens lines =
      (lines.takeWhile (fun l => decide (byteLength l < maxScanTokenSize))).map dropCR := by
  induction lines with
  | nil => rfl
  | cons line rest ih =>
    rw [scannerTokens]
    by_cases h : byteLength line < maxScanTokenSize
    · rw [if_pos h, List.takeWhile_cons_of_pos (by simpa using h), List.map_cons, ih]
    · rw [if_neg h, List.takeWhile_cons_of_neg (by simpa using h)]
      rfl

lemma isPrefixOf_concat (sub l : Str) (c : Char) (hc : c ∉ sub) :
    sub.isPrefixOf (l ++ [c]) = sub.isPrefixOf l := by
  induction sub generalizing l with
  | nil => simp
  | cons a t ih =>
    have hac : a ≠ c := fun e => hc (e ▸ List.mem_cons_self _ _)
    have htc : c ∉ t := fun e => hc (List.mem_cons_of_mem _ e)
    cases l with
    | nil => simp [List.isPrefixOf, hac]
    | cons x xs =>
      rw [List.cons_append]
      simp only [List.isPrefixOf]
      rw [ih xs htc]

lemma stringsContains_concat (l sub : Str) (c : Char) (hc : c ∉ sub) (hne : sub ≠ []) :
    stringsContains (l ++ [c]) sub = stringsContains l sub := by
  induction l with
  | nil =>
    obtain ⟨a, t, rfl⟩ := List.exists_cons_of_ne_nil hne
    have hac : a ≠ c := fun e => hc (e ▸ List.mem_cons_self _ _)
    simp [stringsContains, List.isPrefixOf, hac]
  | cons x xs ih =>
    rw [List.cons_append, stringsContains, stringsContains, ← List.cons_append,
      isPrefixOf_concat sub (x :: xs) c hc, ih]

/-- The marker has no carriage return in it, so dropping the trailing carriage
return of a line does not change whether the line contains the marker. -/
lemma stringsContains_dropCR (line : Str) :
    stringsContains (dropCR line) handshakeMarker = stringsContains line handshakeMarker := by
  unfold dropCR
  by_cases hcr : line.getLast? = some '\r'
  · obtain ⟨init, rfl⟩ := List.getLast?_eq_some_iff.1 hcr
    rw [if_pos hcr, List.dropLast_concat]
    exact (stringsContains_concat init handshakeMarker '\r' (by decide) (by decide)).symm
  · rw [if_neg hcr]

lemma scanStdout_scannerTokens (lines : List Str) :
    scanStdout (scannerTokens lines) = true ↔
      ∃ line ∈ lines.takeWhile (fun l => decide (byteLength l < maxScanTokenSize)),
        stringsContains line handshakeMarker = true := by
  rw [scanStdout_iff, scannerTokens_eq_takeWhile]
  constructor
  · rintro ⟨t, ht, hc⟩
    obtain ⟨raw, hraw, rfl⟩ := List.mem_map.1 ht
    rw [stringsContains_dropCR] at hc
    exact ⟨raw, hraw, hc⟩
  · rintro ⟨raw, hraw, hc⟩
    exact ⟨dropCR raw, List.mem_map.2 ⟨raw, hraw, rfl⟩, by rw [stringsContains_dropCR]; exact hc⟩

lemma Connect_started (p : ProcessEnv) (h : p.started) :
    Connect p =
      if scanStdout (scannerTokens p.stdout) then .returned none
      else if p.waitOk then .returned none else .returned (some .wait) := by
  obtain ⟨h1, h2, h3, h4, h5⟩ := h
  unfold Connect
  simp only [h1, h2, h3, h4, h5, Bool.not_true, Bool.false_eq_true, if_false]
  cases p.waitOk <;> simp

lemma byteLength_append (a b : Str) : byteLength (a ++ b) = byteLength a + byteLength b := by
  simp [byteLength]

/-- The scanner delivers nothing of the output of `longLineProcess`: its only
line is longer than the token limit. -/
lemma longLineProcess_takeWhile :
    longLineProcess.stdout.takeWhile (fun l => decide (byteLength l < maxScanTokenSize)) = [] := by
  have hlen : ¬ byteLength
      (List.replicate 65536 'x' ++ "Initialization Sequence Completed".toList) <
        maxScanTokenSize := by
    rw [byteLength_append, byteLength_replicate]
    have h1 : (65536 : Nat) * Char.utf8Size 'x' = 65536 := rfl
    rw [h1, maxScanTokenSize]
    omega
  show List.takeWhile _
    [List.replicate 65536 'x' ++ "Initialization Sequence Completed".toList] = []
  exact List.takeWhile_cons_of_neg
    (p := fun l => decide (byteLength l < maxScanTokenSize))
    (fun hd => hlen (of_decide_eq_true hd))

/-- C4 (counterexample): a started process that prints one line without the
marker and ends with status 0; `Connect` returns nil although no line of the
output contains the marker. -/
theorem Connect_nil_without_marker :
    (∀ line ∈ (processOf ["Exiting".toList] true).stdout,
      stringsContains line handshakeMarker = false) ∧
    Connect (processOf ["Exiting".toList] true) = .returned none := by
  decide

/-- C4 (amended): for a process that could be started, `Connect` returns nil
exactly when some line of the output before the first line of 65536 bytes or
more contains the marker, or the process ends with status 0; when no such line
contains the marker it returns the result of `Wait`, an error for a non-zero
exit status and nil for status 0. -/
theorem Connect_nil_iff (p : ProcessEnv) (h : p.started) :
    (Connect p = .returned none ↔
      ((∃ line ∈ p.stdout.takeWhile (fun l => decide (byteLength l < maxScanTokenSize)),
          stringsContains line handshakeMarker = true) ∨ p.waitOk = true)) ∧
    ((∀ line ∈ p.stdout.takeWhile (fun l => decide (byteLength l < maxScanTokenSize)),
        stringsContains line handshakeMarker = false) →
      Connect p = .returned (if p.waitOk then none else some .wait)) ∧
    maxScanTokenSize = 65536 := by
  rw [Connect_started p h]
  refine ⟨?_, ?_, rfl⟩
  · rw [← scanStdout_scannerTokens]
    cases hs : scanStdout (scannerTokens p.stdout) <;> cases hw : p.waitOk <;> simp
  · intro hno
    have hs : scanStdout (scannerTokens p.stdout) = false := by
      cases hs : scanStdout (scannerTokens p.stdout) with
      | false => rfl
      | true =>
        obtain ⟨line, hm, hc⟩ := (scanStdout_scannerTokens _).1 hs
        rw [hno line hm] at hc
        exact absurd hc (by decide)
    rw [hs]
    cases hw : p.waitOk <;> simp

/-- C4 (amended), at concrete inputs: without the marker the exit status
decides, and a marker on a line of more than 65536 bytes is not seen. -/
theorem Connect_nil_iff_witness :
    (processOf ["Exiting".toList] false).started ∧
    Connect (processOf ["Exiting".toList] false) = .returned (some .wait) ∧
    longLineProcess.started ∧
    Connect longLineProcess = .returned (some .wait) :=
  ⟨by decide,
   ((Connect_nil_iff (processOf ["Exiting".toList] false) (by decide)).2.1
    (by decide)).trans (by decide),
   by decide,
   (Connect_nil_iff longLineProcess (by decide)).2.1
    (by rw [longLineProcess_takeWhile]; exact fun _ hl => absurd hl (List.not_mem_nil _))⟩

/-! ## Theorems: selection -/

lemma lookupServer_no_match (selection : Str) (l : List Server) (acc : Server)
    (h : ∀ s ∈ l, stringsContains selection s.HostName = false) :
    lookupServer selection l acc = acc := by
  induction l generalizing acc with
  | nil => rfl
  | cons s rest ih =>
    rw [lookupServer, h s (List.mem_cons_self _ _)]
    exact ih _ (fun t ht => h t (List.mem_cons_of_mem _ ht))

lemma serverSelectedIndexFrom_no_match (selection : Str) (l : List Server) (i acc : Nat)
    (h : ∀ s ∈ l, stringsContains selection s.HostName = false) :
    serverSelectedIndexFrom selection l i acc = acc := by
  induction l generalizing i acc with
  | nil => rfl
  | cons s rest ih =>
    rw [serverSelectedIndexFrom, h s (List.mem_cons_self _ _)]
    exact ih _ _ (fun t ht => h t (List.mem_cons_of_mem _ ht))

/-- Both selection loops settle on the last matching server of the list. -/
lemma selection_last_match (selection : Str) (l : List Server)
    (h : ∃ s ∈ l, stringsContains selection s.HostName = true) (i accI : Nat) (acc : Server) :
    ∃ r, serverSelectedIndexFrom selection l i accI = i + r ∧ r < l.length ∧
      l[r]? = some (lookupServer selection l acc) ∧
      stringsContains selection (lookupServer selection l acc).HostName = true ∧
      ∀ j s, r < j → l[j]? = some s → stringsContains selection s.HostName = false := by
  induction l generalizing i accI acc with
  | nil =>
    obtain ⟨s, hs, -⟩ := h
    exact absurd hs (List.not_mem_nil _)
  | cons s rest ih =>
    by_cases hrest : ∃ t ∈ rest, stringsContains selection t.HostName = true
    · obtain ⟨r, h1, h2, h3, h4, h5⟩ := ih hrest (i + 1)
        (if stringsContains selection s.HostName then i else accI)
        (if stringsContains selection s.HostName then s else acc)
      refine ⟨r + 1, ?_, ?_, ?_, ?_, ?_⟩
      · rw [serverSelectedIndexFrom, h1]; omega
      · simp only [List.length_cons]; omega
      · rw [List.getElem?_cons_succ, lookupServer]; exact h3
      · rw [lookupServer]; exact h4
      · intro j t hj ht
        obtain ⟨j2, rfl⟩ : ∃ j2, j = j2 + 1 := ⟨j - 1, by omega⟩
        rw [List.getElem?_cons_succ] at ht
        exact h5 j2 t (by omega) ht
    · have hnone : ∀ t ∈ rest, stringsContains selection t.HostName = false := by
        intro t ht
        cases hc : stringsContains selection t.HostName with
        | false => rfl
        | true => exact absurd ⟨t, ht, hc⟩ hrest
      have hs : stringsContains selection s.HostName = true := by
        obtain ⟨t, ht, hc⟩ := h
        rcases List.mem_cons.1 ht with rfl | ht2
        · exact hc
        · rw [hnone t ht2] at hc; exact absurd hc (by decide)
      refine ⟨0, ?_, ?_, ?_, ?_, ?_⟩
      · rw [serverSelectedIndexFrom, hs, if_pos rfl,
          serverSelectedIndexFrom_no_match _ _ _ _ hnone]; rfl
      · simp
      · rw [lookupServer, hs, if_pos rfl, lookupServer_no_match _ _ _ hnone]; simp
      · rw [lookupServer, hs, if_pos rfl, lookupServer_no_match _ _ _ hnone]; exact hs
      · intro j t hj ht
        obtain ⟨j2, rfl⟩ : ∃ j2, j = j2 + 1 := ⟨j - 1, by omega⟩
        rw [List.getElem?_cons_succ] at ht
        exact hnone t (List.getElem?_mem ht)

lemma serverSelectedIndex_le (selection : Str) (l : List Server) :
    serverSelectedIndex selection l ≤ l.length := by
  by_cases h : ∃ s ∈ l, stringsContains selection s.HostName = true
  · obtain ⟨r, h1, h2, -⟩ := selection_last_match selection l h 0 0 default
    rw [serverSelectedIndex, h1]; omega
  · have hno : ∀ s ∈ l, stringsContains selection s.HostName = false := by
      intro s hs
      cases hc : stringsContains selection s.HostName with
      | false => rfl
      | true => exact absurd ⟨s, hs, hc⟩ h
    rw [serverSelectedIndex, serverSelectedIndexFrom_no_match _ _ _ _ hno]
    exact Nat.zero_le _

/-! ## Theorems: failover loop -/

lemma connectCalls_append (es fs : List Event) :
    connectCalls (es ++ fs) = connectCalls es ++ connectCalls fs := by
  induction es with
  | nil => rfl
  | cons e es ih =>
    cases e <;> simp [connectCalls, ih]

lemma commandLoop_ne_serverNotFound (env : RunEnv) (cs : List Str) :
    commandLoop env cs ≠ .fatal .serverNotFound := by
  induction cs with
  | nil => simp [commandLoop]
  | cons c rest ih =>
    rw [commandLoop]
    by_cases hq : isQuit env c = true
    · rw [if_pos hq]
      cases env.disconnectOk <;> simp
    · rw [if_neg hq]; exact ih

lemma commandLoop_returned (env : RunEnv) (cs : List Str)
    (h : commandLoop env cs = .returned) :
    (∃ c ∈ cs, isQuit env c = true) ∧ env.disconnectOk = true := by
  induction cs with
  | nil => simp [commandLoop] at h
  | cons c rest ih =>
    rw [commandLoop] at h
    by_cases hq : isQuit env c = true
    · rw [if_pos hq] at h
      refine ⟨⟨c, List.mem_cons_self _ _, hq⟩, ?_⟩
      cases hd : env.disconnectOk with
      | true => rfl
      | false => rw [hd] at h; simp at h
    · rw [if_neg hq] at h
      obtain ⟨⟨d, hd, hdq⟩, hok⟩ := ih h
      exact ⟨⟨d, List.mem_cons_of_mem _ hd, hdq⟩, hok⟩

/-- The ways one iteration of the failover loop can go, read off the code. -/
lemma failoverLoop_succ (env : RunEnv) (l : List Server) (n i : Nat) :
    (failoverLoop env l (n + 1) i =
        { outcome := .fatal .decode, events := [] } ∧
      env.base64Ok (pickServer env l i).OpenVpnConfigData = false) ∨
    (failoverLoop env l (n + 1) i =
        { outcome := .fatal .createTemp, events := [] } ∧
      (env.attempt i).createTempOk = false) ∨
    (failoverLoop env l (n + 1) i =
        { outcome := .fatal .write, events := [.createTemp] } ∧
      (env.attempt i).writeOk = false) ∨
    (failoverLoop env l (n + 1) i =
        { outcome := .fatal .close, events := [.createTemp] } ∧
      (env.attempt i).closeOk = false) ∨
    (failoverLoop env l (n + 1) i =
        { outcome := .fatal .connectExit,
          events := [.createTemp, .connect i (pickServer env l i)] } ∧
      prepOk env l i ∧
      Connect (env.attempt i).process = .exited) ∨
    (failoverLoop env l (n + 1) i =
        { outcome := .returned, events := [.createTemp, .connect i (pickServer env l i)] } ∧
      prepOk env l i ∧
      (∃ e, Connect (env.attempt i).process = .returned (some e)) ∧
      env.flagReconnect = true) ∨
    (failoverLoop env l (n + 1) i =
        (failoverLoop env l n (i + 1)).after [.createTemp, .connect i (pickServer env l i)] ∧
      prepOk env l i ∧
      (∃ e, Connect (env.attempt i).process = .returned (some e)) ∧
      env.flagReconnect = false) ∨
    (failoverLoop env l (n + 1) i =
        (failoverLoop env l n (i + 1)).after
          [.createTemp, .connect i (pickServer env l i), .disconnect] ∧
      prepOk env l i ∧
      Connect (env.attempt i).process = .returned none ∧
      (env.attempt i).aliveAtConnect = false ∧ (env.attempt i).aliveAfterGrace = false) ∨
    (failoverLoop env l (n + 1) i =
        { outcome := commandLoop env env.commands
          events := [.createTemp, .connect i (pickServer env l i), .monitoring i] } ∧
      prepOk env l i ∧
      attemptSucceeds env i) := by
  rw [failoverLoop]
  cases h1 : env.base64Ok (pickServer env l i).OpenVpnConfigData
  · exact Or.inl ⟨by simp, rfl⟩
  cases h2 : (env.attempt i).createTempOk
  · exact Or.inr (Or.inl ⟨by simp [h1], rfl⟩)
  cases h3 : (env.attempt i).writeOk
  · exact Or.inr (Or.inr (Or.inl ⟨by simp [h1, h2], rfl⟩))
  cases h4 : (env.attempt i).closeOk
  · exact Or.inr (Or.inr (Or.inr (Or.inl ⟨by simp [h1, h2, h3], rfl⟩)))
  have hp : prepOk env l i := ⟨h1, h2, h3, h4⟩
  cases h5 : Connect (env.attempt i).process with
  | exited =>
    exact Or.inr (Or.inr (Or.inr (Or.inr (Or.inl ⟨by simp [h1, h2, h3, h4, h5], hp, rfl⟩))))
  | returned err =>
    cases err with
    | some e =>
      cases h6 : env.flagReconnect
      · exact Or.inr (Or.inr (Or.inr (Or.inr (Or.inr (Or.inr (Or.inl
          ⟨by simp [h1, h2, h3, h4, h5, h6], hp, ⟨e, rfl⟩, rfl⟩))))))
      · exact Or.inr (Or.inr (Or.inr (Or.inr (Or.inr (Or.inl
          ⟨by simp [h1, h2, h3, h4, h5, h6], hp, ⟨e, rfl⟩, rfl⟩)))))
    | none =>
      cases h7 : (env.attempt i).aliveAtConnect
      · cases h8 : (env.attempt i).aliveAfterGrace
        · exact Or.inr (Or.inr (Or.inr (Or.inr (Or.inr (Or.inr (Or.inr (Or.inl
            ⟨by simp [h1, h2, h3, h4, h5, h7, h8], hp, rfl, rfl, rfl⟩)))))))
        · exact Or.inr (Or.inr (Or.inr (Or.inr (Or.inr (Or.inr (Or.inr (Or.inr
            ⟨by simp [h1, h2, h3, h4, h5, h7, h8], hp, h5, Or.inr h8⟩)))))))
      · exact Or.inr (Or.inr (Or.inr (Or.inr (Or.inr (Or.inr (Or.inr (Or.inr
          ⟨by simp [h1, h2, h3, h4, h5, h7], hp, h5, Or.inl h7⟩)))))))

lemma not_attemptSucceeds_of_error (env : RunEnv) (i : Nat)
    (h : ∃ e, Connect (env.attempt i).process = .returned (some e)) :
    ¬ attemptSucceeds env i := by
  obtain ⟨e, he⟩ := h
  intro hs
  rw [hs.1] at he
  simp at he

lemma not_attemptSucceeds_of_dead (env : RunEnv) (i : Nat)
    (h1 : (env.attempt i).aliveAtConnect = false) (h2 : (env.attempt i).aliveAfterGrace = false) :
    ¬ attemptSucceeds env i := by
  intro hs
  rcases hs.2 with h | h
  · rw [h1] at h; exact absurd h (by decide)
  · rw [h2] at h; exact absurd h (by decide)

/-- The calls of `vpn.Connect` made by the failover loop started at loop
variable `i` with `n` iterations left: consecutive loop variables from `i`, each
with the server picked in its iteration; every attempt but the last one failed;
and unless a fatal condition or the flag `--reconnect` cuts the loop short, it
ends at the first success or after `n` attempts. -/
lemma failoverLoop_calls (env : RunEnv) (l : List Server) (n i : Nat)
    (hb : i + n ≤ l.length) :
    ∃ m, m ≤ n ∧
      connectCalls (failoverLoop env l n i).events =
        (List.range' i m).map (fun x => (x, pickServer env l x)) ∧
      (∀ x, i ≤ x → x + 1 < i + m → ¬ attemptSucceeds env x) ∧
      (env.flagReconnect = false → noFatal env l →
        (1 ≤ m ∧ attemptSucceeds env (i + m - 1)) ∨
        (m = n ∧ ∀ x, i ≤ x → x < i + n → ¬ attemptSucceeds env x)) := by
  induction n generalizing i with
  | zero =>
    refine ⟨0, le_refl _, by simp [failoverLoop, connectCalls], ?_, ?_⟩
    · intro x h1 h2; omega
    · intro _ _
      exact Or.inr ⟨rfl, fun x h1 h2 => by omega⟩
  | succ n ih =>
    have hi : i < l.length := by omega
    rcases failoverLoop_succ env l n i with
      ⟨heq, hc⟩ | ⟨heq, hc⟩ | ⟨heq, hc⟩ | ⟨heq, hc⟩ | ⟨heq, -, hc⟩ | ⟨heq, -, hc, hf⟩ |
      ⟨heq, -, hc, hf⟩ | ⟨heq, -, hc, hd1, hd2⟩ | ⟨heq, -, hc⟩
    · refine ⟨0, Nat.zero_le _, by rw [heq]; simp [connectCalls], fun x h1 h2 => by omega, ?_⟩
      intro _ hnf
      rw [(hnf i hi).1] at hc
      exact absurd hc (by decide)
    · refine ⟨0, Nat.zero_le _, by rw [heq]; simp [connectCalls], fun x h1 h2 => by omega, ?_⟩
      intro _ hnf
      rw [(hnf i hi).2.1] at hc
      exact absurd hc (by decide)
    · refine ⟨0, Nat.zero_le _, by rw [heq]; simp [connectCalls], fun x h1 h2 => by omega, ?_⟩
      intro _ hnf
      rw [(hnf i hi).2.2.1] at hc
      exact absurd hc (by decide)
    · refine ⟨0, Nat.zero_le _, by rw [heq]; simp [connectCalls], fun x h1 h2 => by omega, ?_⟩
      intro _ hnf
      rw [(hnf i hi).2.2.2.1] at hc
      exact absurd hc (by decide)
    · refine ⟨1, by omega, by rw [heq]; simp [connectCalls], fun x h1 h2 => by omega, ?_⟩
      intro _ hnf
      exact absurd hc (hnf i hi).2.2.2.2
    · refine ⟨1, by omega, by rw [heq]; simp [connectCalls], fun x h1 h2 => by omega, ?_⟩
      intro hr _
      rw [hf] at hr
      exact absurd hr (by decide)
    · obtain ⟨m, hm, hcalls, hfail, hend⟩ := ih (i + 1) (by omega)
      have hni : ¬ attemptSucceeds env i := not_attemptSucceeds_of_error env i hc
      refine ⟨m + 1, by omega, ?_, ?_, ?_⟩
      · rw [heq, RunResult.after, connectCalls_append, hcalls]
        simp [connectCalls, List.range'_succ]
      · intro x h1 h2
        rcases Nat.eq_or_lt_of_le h1 with h | h
        · rw [← h]; exact hni
        · exact hfail x (by omega) (by omega)
      · intro hr hnf
        rcases hend hr hnf with ⟨h1, h2⟩ | ⟨h1, h2⟩
        · refine Or.inl ⟨by omega, ?_⟩
          have : i + (m + 1) - 1 = i + 1 + m - 1 := by omega
          rw [this]; exact h2
        · refine Or.inr ⟨by omega, fun x hx1 hx2 => ?_⟩
          rcases Nat.eq_or_lt_of_le hx1 with h | h
          · rw [← h]; exact hni
          · exact h2 x (by omega) (by omega)
    · obtain ⟨m, hm, hcalls, hfail, hend⟩ := ih (i + 1) (by omega)
      have hni : ¬ attemptSucceeds env i := not_attemptSucceeds_of_dead env i hd1 hd2
      refine ⟨m + 1, by omega, ?_, ?_, ?_⟩
      · rw [heq, RunResult.after, connectCalls_append, hcalls]
        simp [connectCalls, List.range'_succ]
      · intro x h1 h2
        rcases Nat.eq_or_lt_of_le h1 with h | h
        · rw [← h]; exact hni
        · exact hfail x (by omega) (by omega)
      · intro hr hnf
        rcases hend hr hnf with ⟨h1, h2⟩ | ⟨h1, h2⟩
        · refine Or.inl ⟨by omega, ?_⟩
          have : i + (m + 1) - 1 = i + 1 + m - 1 := by omega
          rw [this]; exact h2
        · refine Or.inr ⟨by omega, fun x hx1 hx2 => ?_⟩
          rcases Nat.eq_or_lt_of_le hx1 with h | h
          · rw [← h]; exact hni
          · exact h2 x (by omega) (by omega)
    · refine ⟨1, by omega, by rw [heq]; simp [connectCalls], fun x h1 h2 => by omega, ?_⟩
      intro _ _
      exact Or.inl ⟨le_refl _, by simpa using hc⟩

lemma failoverLoop_ne_serverNotFound (env : RunEnv) (l : List Server) (n i : Nat) :
    (failoverLoop env l n i).outcome ≠ .fatal .serverNotFound := by
  induction n generalizing i with
  | zero => simp [failoverLoop]
  | succ n ih =>
    rcases failoverLoop_succ env l n i with
      ⟨heq, -⟩ | ⟨heq, -⟩ | ⟨heq, -⟩ | ⟨heq, -⟩ | ⟨heq, -⟩ | ⟨heq, -⟩ |
      ⟨heq, -⟩ | ⟨heq, -⟩ | ⟨heq, -⟩ <;> rw [heq]
    · simp
    · simp
    · simp
    · simp
    · simp
    · simp
    · exact ih (i + 1)
    · exact ih (i + 1)
    · exact commandLoop_ne_serverNotFound env env.commands

/-- Either the loop enters the command loop, whose outcome is then the outcome
of the run, or it never does and no attempt it made succeeded. -/
lemma failoverLoop_monitoring (env : RunEnv) (l : List Server) (n i : Nat) :
    ((∃ x, Event.monitoring x ∈ (failoverLoop env l n i).events) ∧
      (failoverLoop env l n i).outcome = commandLoop env env.commands) ∨
    ((∀ x, Event.monitoring x ∉ (failoverLoop env l n i).events) ∧
      ∀ x s, Event.connect x s ∈ (failoverLoop env l n i).events → ¬ attemptSucceeds env x) := by
  induction n generalizing i with
  | zero => exact Or.inr ⟨by simp [failoverLoop], by simp [failoverLoop]⟩
  | succ n ih =>
    rcases failoverLoop_succ env l n i with
      ⟨heq, hc⟩ | ⟨heq, hc⟩ | ⟨heq, hc⟩ | ⟨heq, hc⟩ | ⟨heq, -, hc⟩ | ⟨heq, -, hc, hf⟩ |
      ⟨heq, -, hc, hf⟩ | ⟨heq, -, hc, hd1, hd2⟩ | ⟨heq, -, hc⟩ <;> rw [heq]
    · exact Or.inr ⟨by simp, by simp⟩
    · exact Or.inr ⟨by simp, by simp⟩
    · exact Or.inr ⟨by simp, by simp⟩
    · exact Or.inr ⟨by simp, by simp⟩
    · refine Or.inr ⟨by simp, ?_⟩
      intro x s hx
      simp at hx
      rw [hx.1]
      intro hs
      rw [hs.1] at hc
      exact absurd hc (by simp)
    · refine Or.inr ⟨by simp, ?_⟩
      intro x s hx
      simp at hx
      rw [hx.1]
      exact not_attemptSucceeds_of_error env i hc
    · rcases ih (i + 1) with ⟨⟨x, hx⟩, ho⟩ | ⟨hno, hfail⟩
      · exact Or.inl ⟨⟨x, by simp [RunResult.after, hx]⟩, ho⟩
      · refine Or.inr ⟨fun x => by simp [RunResult.after, hno x], ?_⟩
        intro x s hx
        simp [RunResult.after] at hx
        rcases hx with ⟨rfl, -⟩ | hx
        · exact not_attemptSucceeds_of_error env x hc
        · exact hfail x s hx
    · rcases ih (i + 1) with ⟨⟨x, hx⟩, ho⟩ | ⟨hno, hfail⟩
      · exact Or.inl ⟨⟨x, by simp [RunResult.after, hx]⟩, ho⟩
      · refine Or.inr ⟨fun x => by simp [RunResult.after, hno x], ?_⟩
        intro x s hx
        simp [RunResult.after] at hx
        rcases hx with ⟨rfl, -⟩ | hx
        · exact not_attemptSucceeds_of_dead env x hd1 hd2
        · exact hfail x s hx
    · exact Or.inl ⟨⟨i, by simp⟩, rfl⟩

/-- When no iteration meets a fatal condition and no attempt succeeds, the
loop ends and `Run` returns. -/
lemma failoverLoop_all_fail (env : RunEnv) (l : List Server) (n i : Nat)
    (hb : i + n ≤ l.length)
    (hnf : noFatal env l) (hfail : ∀ x, x < l.length → ¬ attemptSucceeds env x) :
    (failoverLoop env l n i).outcome = .returned ∧
      ∀ x, Event.monitoring x ∉ (failoverLoop env l n i).events := by
  induction n generalizing i with
  | zero => simp [failoverLoop]
  | succ n ih =>
    have hi : i < l.length := by omega
    have ih2 := ih (i + 1) (by omega)
    rcases failoverLoop_succ env l n i with
      ⟨heq, hc⟩ | ⟨heq, hc⟩ | ⟨heq, hc⟩ | ⟨heq, hc⟩ | ⟨heq, -, hc⟩ | ⟨heq, -, hc, hf⟩ |
      ⟨heq, -, hc, hf⟩ | ⟨heq, -, hc, hd1, hd2⟩ | ⟨heq, -, hc⟩
    · rw [(hnf i hi).1] at hc; exact absurd hc (by decide)
    · rw [(hnf i hi).2.1] at hc; exact absurd hc (by decide)
    · rw [(hnf i hi).2.2.1] at hc; exact absurd hc (by decide)
    · rw [(hnf i hi).2.2.2.1] at hc; exact absurd hc (by decide)
    · exact absurd hc (hnf i hi).2.2.2.2
    · rw [heq]; simp
    · rw [heq]
      exact ⟨ih2.1, fun x => by simp [RunResult.after, ih2.2 x]⟩
    · rw [heq]
      exact ⟨ih2.1, fun x => by simp [RunResult.after, ih2.2 x]⟩
    · exact absurd hc (hfail i hi)

/-- The calls of `vpn.Connect` made by the failover loop without `--reconnect`,
with the way the loop ends: at the first success, at a call of `vpn.Connect`
that ends the program, before the call for a server whose preparation fails, or
after the last server. -/
lemma failoverLoop_trace (env : RunEnv) (l : List Server) (n i : Nat)
    (hrec : env.flagReconnect = false) :
    ∃ m, m ≤ n ∧
      connectCalls (failoverLoop env l n i).events =
        (List.range' i m).map (fun x => (x, pickServer env l x)) ∧
      (∀ x, i ≤ x → x + 1 < i + m → attemptFails env l x) ∧
      ((1 ≤ m ∧ attemptSucceeds env (i + m - 1)) ∨
       (1 ≤ m ∧ Connect (env.attempt (i + m - 1)).process = .exited) ∨
       (m < n ∧ ¬ prepOk env l (i + m) ∧ ∀ x, i ≤ x → x < i + m → attemptFails env l x) ∨
       (m = n ∧ ∀ x, i ≤ x → x < i + n → attemptFails env l x)) := by
  induction n generalizing i with
  | zero =>
    refine ⟨0, le_refl _, by simp [failoverLoop, connectCalls], fun x h1 h2 => by omega, ?_⟩
    exact Or.inr (Or.inr (Or.inr ⟨rfl, fun x h1 h2 => by omega⟩))
  | succ n ih =>
    have prepCase : ¬ prepOk env l i →
        connectCalls (failoverLoop env l (n + 1) i).events = [] →
        ∃ m, m ≤ n + 1 ∧
          connectCalls (failoverLoop env l (n + 1) i).events =
            (List.range' i m).map (fun x => (x, pickServer env l x)) ∧
          (∀ x, i ≤ x → x + 1 < i + m → attemptFails env l x) ∧
          ((1 ≤ m ∧ attemptSucceeds env (i + m - 1)) ∨
           (1 ≤ m ∧ Connect (env.attempt (i + m - 1)).process = .exited) ∨
           (m < n + 1 ∧ ¬ prepOk env l (i + m) ∧
              ∀ x, i ≤ x → x < i + m → attemptFails env l x) ∨
           (m = n + 1 ∧ ∀ x, i ≤ x → x < i + (n + 1) → attemptFails env l x)) := by
      intro hnp hcalls
      refine ⟨0, Nat.zero_le _, by rw [hcalls]; rfl, fun x h1 h2 => by omega, ?_⟩
      exact Or.inr (Or.inr (Or.inl ⟨by omega, hnp, fun x h1 h2 => by omega⟩))
    have stepCase : attemptFails env l i →
        ∀ es, connectCalls es = [(i, pickServer env l i)] →
        failoverLoop env l (n + 1) i = (failoverLoop env l n (i + 1)).after es →
        ∃ m, m ≤ n + 1 ∧
          connectCalls (failoverLoop env l (n + 1) i).events =
            (List.range' i m).map (fun x => (x, pickServer env l x)) ∧
          (∀ x, i ≤ x → x + 1 < i + m → attemptFails env l x) ∧
          ((1 ≤ m ∧ attemptSucceeds env (i + m - 1)) ∨
           (1 ≤ m ∧ Connect (env.attempt (i + m - 1)).process = .exited) ∨
           (m < n + 1 ∧ ¬ prepOk env l (i + m) ∧
              ∀ x, i ≤ x → x < i + m → attemptFails env l x) ∨
           (m = n + 1 ∧ ∀ x, i ≤ x → x < i + (n + 1) → attemptFails env l x)) := by
      intro hfi es hes heq
      obtain ⟨m, hm, hcalls, hfail, hend⟩ := ih (i + 1)
      have hidx : i + (m + 1) - 1 = i + 1 + m - 1 := by omega
      have hall : ∀ k, (∀ x, i + 1 ≤ x → x < i + 1 + k → attemptFails env l x) →
          ∀ x, i ≤ x → x < i + (k + 1) → attemptFails env l x := by
        intro k hk x hx1 hx2
        rcases Nat.eq_or_lt_of_le hx1 with h | h
        · rw [← h]; exact hfi
        · exact hk x (by omega) (by omega)
      refine ⟨m + 1, by omega, ?_, ?_, ?_⟩
      · rw [heq, RunResult.after, connectCalls_append, hcalls, hes]
        simp [List.range'_succ]
      · intro x h1 h2
        rcases Nat.eq_or_lt_of_le h1 with h | h
        · rw [← h]; exact hfi
        · exact hfail x (by omega) (by omega)
      · rcases hend with ⟨h1, h2⟩ | ⟨h1, h2⟩ | ⟨h1, h2, h3⟩ | ⟨h1, h2⟩
        · exact Or.inl ⟨by omega, by rw [hidx]; exact h2⟩
        · exact Or.inr (Or.inl ⟨by omega, by rw [hidx]; exact h2⟩)
        · refine Or.inr (Or.inr (Or.inl ⟨by omega, ?_, hall m h3⟩))
          have : i + (m + 1) = i + 1 + m := by omega
          rw [this]; exact h2
        · exact Or.inr (Or.inr (Or.inr ⟨by omega, hall n h2⟩))
    rcases failoverLoop_succ env l n i with
      ⟨heq, hc⟩ | ⟨heq, hc⟩ | ⟨heq, hc⟩ | ⟨heq, hc⟩ | ⟨heq, hp, hc⟩ | ⟨heq, hp, hc, hf⟩ |
      ⟨heq, hp, hc, hf⟩ | ⟨heq, hp, hc, hd1, hd2⟩ | ⟨heq, hp, hc⟩
    · refine prepCase (fun hp => ?_) (by rw [heq]; rfl)
      rw [hp.1] at hc; exact absurd hc (by decide)
    · refine prepCase (fun hp => ?_) (by rw [heq]; rfl)
      rw [hp.2.1] at hc; exact absurd hc (by decide)
    · refine prepCase (fun hp => ?_) (by rw [heq]; rfl)
      rw [hp.2.2.1] at hc; exact absurd hc (by decide)
    · refine prepCase (fun hp => ?_) (by rw [heq]; rfl)
      rw [hp.2.2.2] at hc; exact absurd hc (by decide)
    · refine ⟨1, by omega, by rw [heq]; simp [connectCalls], fun x h1 h2 => by omega, ?_⟩
      exact Or.inr (Or.inl ⟨le_refl _, by simpa using hc⟩)
    · rw [hf] at hrec
      exact absurd hrec (by decide)
    · have hfi : attemptFails env l i := by
        obtain ⟨e, he⟩ := hc
        exact ⟨hp, by rw [he]; simp, not_attemptSucceeds_of_error env i ⟨e, he⟩⟩
      exact stepCase hfi _ (by simp [connectCalls]) heq
    · have hfi : attemptFails env l i :=
        ⟨hp, by rw [hc]; simp, not_attemptSucceeds_of_dead env i hd1 hd2⟩
      exact stepCase hfi _ (by simp [connectCalls]) heq
    · refine ⟨1, by omega, by rw [heq]; simp [connectCalls], fun x h1 h2 => by omega, ?_⟩
      exact Or.inl ⟨le_refl _, by simpa using hc⟩

/-! ## Theorems: the run -/

lemma chooseSelection_args (env : RunEnv) (sel : Str) (rest : List Str)
    (hrand : env.flagRandom = false) (hargs : env.args = sel :: rest) :
    chooseSelection env = .ok sel := by
  simp [chooseSelection, hrand, hargs]

lemma chooseSelection_random (env : RunEnv) (hrand : env.flagRandom = true) :
    chooseSelection env = .ok [] := by
  simp [chooseSelection, hrand]

lemma Run_explicit (env : RunEnv) (servers : List Server) (sel : Str)
    (hl : env.getList = some servers) (hrand : env.flagRandom = false)
    (hsel : chooseSelection env = .ok sel) :
    Run env =
      if (lookupServer sel servers default).HostName = [] then
        { outcome := .fatal .serverNotFound, events := [] }
      else
        failoverLoop env servers (servers.length - serverSelectedIndex sel servers)
          (serverSelectedIndex sel servers) := by
  simp only [Run, hl, hsel, hrand]
  simp

lemma Run_random (env : RunEnv) (servers : List Server)
    (hl : env.getList = some servers) (hrand : env.flagRandom = true) :
    Run env =
      failoverLoop env servers (servers.length - serverSelectedIndex [] servers)
        (serverSelectedIndex [] servers) := by
  simp only [Run, hl, chooseSelection_random env hrand, hrand]
  simp

lemma lookupServer_hostName_ne (sel : Str) (servers : List Server)
    (hne : ∀ s ∈ servers, s.HostName ≠ [])
    (hmatch : ∃ s ∈ servers, stringsContains sel s.HostName = true) :
    (lookupServer sel servers default).HostName ≠ [] := by
  obtain ⟨r, -, -, h3, -, -⟩ := selection_last_match sel servers hmatch 0 0 default
  exact hne _ (List.getElem?_mem h3)

lemma exitStatus_zero_iff (o : Outcome) : exitStatus o = some 0 ↔ o = .returned := by
  cases o <;> simp [exitStatus]

lemma map_getD_range' {α : Type} (l : List α) (d : α) (m k : Nat) (h : k + m ≤ l.length) :
    (List.range' k m).map (fun i => l.getD i d) = (l.drop k).take m := by
  induction m generalizing k with
  | zero => simp
  | succ m ih =>
    have hk : k < l.length := by omega
    rw [List.range'_succ, List.map_cons, ih (k + 1) (by omega), List.drop_eq_getElem_cons hk,
      List.take_succ_cons]
    simp [List.getD_eq_getElem?_getD, List.getElem?_eq_getElem hk]

/-- C2 (the code at the failing input): in scenario A the first connection
fails and the run returns at once; `vpn.Connect` is called for the first server
only and the command loop is not entered, although the attempt on the second
server would succeed. -/
theorem scenarioA_stops_at_first_failure :
    Run scenarioA =
      { outcome := .returned, events := [.createTemp, .connect 0 (serverNamed "S1")] } ∧
    serverSelectedIndex "S1".toList [serverNamed "S1", serverNamed "S2"] = 0 ∧
    ¬ attemptSucceeds scenarioA 0 ∧ attemptSucceeds scenarioA 1 := by
  decide

/-- C3 (counterexample): with host names `vpn1` and `vpn12` and the identifier
`vpn12`, both servers match; the first match is at position 0, yet the server
selected and the starting index are those of position 1, and the only call of
`vpn.Connect` is made for `vpn12`. -/
theorem selection_not_first_match :
    (∀ s ∈ ambiguousServers, s.HostName ≠ []) ∧
    (∀ s ∈ ambiguousServers, stringsContains "vpn12".toList s.HostName = true) ∧
    firstMatchIndex "vpn12".toList ambiguousServers = 0 ∧
    serverSelectedIndex "vpn12".toList ambiguousServers = 1 ∧
    lookupServer "vpn12".toList ambiguousServers default = serverNamed "vpn12" ∧
    connectCalls (Run ambiguousRun).events = [(1, serverNamed "vpn12")] := by
  decide

/-- C3 (amended): under explicit selection, with non-empty host names and at
least one server matching the identifier, the server selected and the starting
index are those of the LAST matching server in list order, and the failover
loop starts there. -/
theorem selection_is_last_match (env : RunEnv) (servers : List Server) (sel : Str)
    (hl : env.getList = some servers) (hrand : env.flagRandom = false)
    (hsel : chooseSelection env = .ok sel)
    (hne : ∀ s ∈ servers, s.HostName ≠ [])
    (hmatch : ∃ s ∈ servers, stringsContains sel s.HostName = true) :
    serverSelectedIndex sel servers < servers.length ∧
    servers[serverSelectedIndex sel servers]? = some (lookupServer sel servers default) ∧
    stringsContains sel (lookupServer sel servers default).HostName = true ∧
    (∀ j s, serverSelectedIndex sel servers < j → servers[j]? = some s →
      stringsContains sel s.HostName = false) ∧
    pickServer env servers (serverSelectedIndex sel servers) =
      lookupServer sel servers default ∧
    Run env =
      failoverLoop env servers (servers.length - serverSelectedIndex sel servers)
        (serverSelectedIndex sel servers) := by
  obtain ⟨r, h1, h2, h3, h4, h5⟩ := selection_last_match sel servers hmatch 0 0 default
  have hk : serverSelectedIndex sel servers = r := by
    rw [serverSelectedIndex, h1]; omega
  rw [hk]
  refine ⟨h2, h3, h4, h5, ?_, ?_⟩
  · simp [pickServer, hrand, List.getD_eq_getElem?_getD, h3]
  · rw [Run_explicit env servers sel hl hrand hsel,
      if_neg (lookupServer_hostName_ne sel servers hne hmatch), hk]

/-- C3 (amended), at a concrete input: the run on `vpn1`, `vpn12` with the
identifier `vpn12`. -/
theorem selection_is_last_match_witness :
    serverSelectedIndex "vpn12".toList ambiguousServers < ambiguousServers.length ∧
    ambiguousServers[serverSelectedIndex "vpn12".toList ambiguousServers]? =
      some (lookupServer "vpn12".toList ambiguousServers default) ∧
    stringsContains "vpn12".toList
      (lookupServer "vpn12".toList ambiguousServers default).HostName = true ∧
    (∀ j s, serverSelectedIndex "vpn12".toList ambiguousServers < j →
      ambiguousServers[j]? = some s → stringsContains "vpn12".toList s.HostName = false) ∧
    pickServer ambiguousRun ambiguousServers
        (serverSelectedIndex "vpn12".toList ambiguousServers) =
      lookupServer "vpn12".toList ambiguousServers default ∧
    Run ambiguousRun =
      failoverLoop ambiguousRun ambiguousServers
        (ambiguousServers.length - serverSelectedIndex "vpn12".toList ambiguousServers)
        (serverSelectedIndex "vpn12".toList ambiguousServers) :=
  selection_is_last_match ambiguousRun ambiguousServers "vpn12".toList rfl rfl rfl
    (by decide) (by decide)

/-- C9: under explicit selection with non-empty host names, a run whose
identifier matches no server ends with `ServerNotFound` before the failover
loop, with no configuration file created and no call of `vpn.Connect`; a run
whose identifier matches some server does not end with `ServerNotFound`. -/
theorem Run_serverNotFound (env : RunEnv) (servers : List Server) (sel : Str)
    (rest : List Str)
    (hl : env.getList = some servers) (hrand : env.flagRandom = false)
    (hargs : env.args = sel :: rest)
    (hne : ∀ s ∈ servers, s.HostName ≠ []) :
    ((∀ s ∈ servers, stringsContains sel s.HostName = false) →
      Run env = { outcome := .fatal .serverNotFound, events := [] }) ∧
    ((∃ s ∈ servers, stringsContains sel s.HostName = true) →
      (Run env).outcome ≠ .fatal .serverNotFound) := by
  have hsel := chooseSelection_args env sel rest hrand hargs
  rw [Run_explicit env servers sel hl hrand hsel]
  constructor
  · intro hno
    rw [lookupServer_no_match sel servers default hno]
    exact if_pos rfl
  · intro hmatch
    rw [if_neg (lookupServer_hostName_ne sel servers hne hmatch)]
    exact failoverLoop_ne_serverNotFound _ _ _ _

/-- C9, at concrete inputs: the identifier `S3` on servers `S1`, `S2` ends
the run with `ServerNotFound` and no effect; the identifier `S2` on `S1`, `S2`,
`S3` does not. -/
theorem Run_serverNotFound_witness :
    Run unknownServerRun = { outcome := .fatal .serverNotFound, events := [] } ∧
    (Run failoverRun).outcome ≠ .fatal .serverNotFound :=
  ⟨(Run_serverNotFound unknownServerRun [serverNamed "S1", serverNamed "S2"] "S3".toList []
      rfl rfl rfl (by decide)).1 (by decide),
   (Run_serverNotFound failoverRun [serverNamed "S1", serverNamed "S2", serverNamed "S3"]
      "S2".toList [] rfl rfl rfl (by decide)).2 (by decide)⟩

/-- C6 (counterexample): two servers, the first selected by name, no
`--reconnect`; the connection to the first fails and the payload of the second
is not base64.  `vpn.Connect` is called for the first server only and the
program ends at line 106: no attempt succeeded, yet the calls do not reach the
last server of the list. -/
theorem failover_stops_at_bad_payload :
    badPayloadRun.flagRandom = false ∧ badPayloadRun.flagReconnect = false ∧
    serverSelectedIndex "S1".toList [serverNamed "S1",
      { HostName := "S2".toList, IPAddr := [], CountryLong := [], CountryShort := [],
        OpenVpnConfigData := "!".toList }] = 0 ∧
    ¬ attemptSucceeds badPayloadRun 0 ∧
    connectCalls (Run badPayloadRun).events = [(0, serverNamed "S1")] ∧
    (Run badPayloadRun).outcome = .fatal .decode := by
  decide

/-- C6 (amended): under explicit selection without `--reconnect`, with
non-empty host names and a matching identifier, the calls of `vpn.Connect` are
made for `list[k], list[k+1], ...` in list order from the starting index `k`,
each loop variable once and none below `k`: there are `m` calls with `k + m` at
most the length of the list, and every attempt before the last call failed
without ending the program.  The calls end at the first success; or at a call
of `vpn.Connect` that ends the program; or before the first server whose
payload does not decode or whose configuration file cannot be written, all
earlier attempts having failed; or, when none of these occurs, after the last
server of the list, all attempts having failed. -/
theorem failover_order (env : RunEnv) (servers : List Server) (sel : Str) (rest : List Str)
    (hl : env.getList = some servers) (hrand : env.flagRandom = false)
    (hrec : env.flagReconnect = false) (hargs : env.args = sel :: rest)
    (hne : ∀ s ∈ servers, s.HostName ≠ [])
    (hmatch : ∃ s ∈ servers, stringsContains sel s.HostName = true) :
    serverSelectedIndex sel servers < servers.length ∧
    ∃ m, serverSelectedIndex sel servers + m ≤ servers.length ∧
      connectCalls (Run env).events =
        (List.range' (serverSelectedIndex sel servers) m).map
          (fun i => (i, servers.getD i default)) ∧
      (connectCalls (Run env).events).map Prod.snd =
        (servers.drop (serverSelectedIndex sel servers)).take m ∧
      (∀ i, serverSelectedIndex sel servers ≤ i → i + 1 < serverSelectedIndex sel servers + m →
        attemptFails env servers i) ∧
      ((1 ≤ m ∧ attemptSucceeds env (serverSelectedIndex sel servers + m - 1)) ∨
       (1 ≤ m ∧
          Connect (env.attempt (serverSelectedIndex sel servers + m - 1)).process = .exited) ∨
       (serverSelectedIndex sel servers + m < servers.length ∧
          ¬ prepOk env servers (serverSelectedIndex sel servers + m) ∧
          ∀ i, serverSelectedIndex sel servers ≤ i → i < serverSelectedIndex sel servers + m →
            attemptFails env servers i) ∨
       (serverSelectedIndex sel servers + m = servers.length ∧
          ∀ i, serverSelectedIndex sel servers ≤ i → i < servers.length →
            attemptFails env servers i)) := by
  have hsel := chooseSelection_args env sel rest hrand hargs
  obtain ⟨r, h1, h2, -⟩ := selection_last_match sel servers hmatch 0 0 default
  have hk : serverSelectedIndex sel servers = r := by
    rw [serverSelectedIndex, h1]; omega
  rw [Run_explicit env servers sel hl hrand hsel,
    if_neg (lookupServer_hostName_ne sel servers hne hmatch), hk]
  obtain ⟨m, hm, hcalls, hfail, hend⟩ :=
    failoverLoop_trace env servers (servers.length - r) r hrec
  have hpick : (fun x => (x, pickServer env servers x)) =
      (fun i => (i, servers.getD i default)) := by
    funext x
    simp [pickServer, hrand]
  rw [hpick] at hcalls
  refine ⟨h2, m, by omega, hcalls, ?_, hfail, ?_⟩
  · rw [hcalls, List.map_map]
    exact map_getD_range' servers default m r (by omega)
  · rcases hend with h | h | ⟨h3, h4, h5⟩ | ⟨h3, h4⟩
    · exact Or.inl h
    · exact Or.inr (Or.inl h)
    · exact Or.inr (Or.inr (Or.inl ⟨by omega, h4, h5⟩))
    · exact Or.inr (Or.inr (Or.inr ⟨by omega, fun i hi1 hi2 => h4 i hi1 (by omega)⟩))

/-- C6 (amended), at a concrete input: three servers, the second selected, its
connection failing and that of the third succeeding. -/
theorem failover_order_witness :
    serverSelectedIndex "S2".toList [serverNamed "S1", serverNamed "S2", serverNamed "S3"] < 3 ∧
    attemptFails failoverRun [serverNamed "S1", serverNamed "S2", serverNamed "S3"] 1 ∧
    attemptSucceeds failoverRun 2 ∧
    connectCalls (Run failoverRun).events = [(1, serverNamed "S2"), (2, serverNamed "S3")] :=
  ⟨(failover_order failoverRun [serverNamed "S1", serverNamed "S2", serverNamed "S3"]
      "S2".toList [] rfl rfl rfl rfl (by decide) (by decide)).1,
    by decide, by decide, by decide⟩

/-- C5 (counterexample): one server, selected by name, whose connection fails
with a non-zero exit status; nothing is typed on standard input.  The failover
loop runs off the end of the list and the run ends with status 0, although no
`quit` was issued and no attempt succeeded. -/
theorem Run_all_fail_status_zero :
    exitStatus (Run allFailRun).outcome = some 0 ∧
    ¬ (∃ c ∈ allFailRun.commands, isQuit allFailRun c = true) ∧
    connectCalls (Run allFailRun).events = [(0, serverNamed "S1")] ∧
    ¬ attemptSucceeds allFailRun 0 := by
  decide

/-- C5 (amended): a run ends with status 0 only if either the command loop was
entered, the operator issued `quit` or `q` there and the disconnect succeeded,
or the command loop was never entered and no attempt made succeeded (the
failover loop ran off the end of the list or stopped at a failed connection);
and a run that reaches the failover loop and in which every attempt fails
without a fatal condition does end with status 0. -/
theorem Run_status_zero (env : RunEnv) :
    (exitStatus (Run env).outcome = some 0 →
      ((∃ i, Event.monitoring i ∈ (Run env).events) ∧
        (∃ c ∈ env.commands, isQuit env c = true) ∧ env.disconnectOk = true) ∨
      ((∀ i, Event.monitoring i ∉ (Run env).events) ∧
        ∀ i s, Event.connect i s ∈ (Run env).events → ¬ attemptSucceeds env i)) ∧
    (∀ servers sel, env.getList = some servers → chooseSelection env = .ok sel →
      (env.flagRandom = true ∨ (lookupServer sel servers default).HostName ≠ []) →
      noFatal env servers → (∀ i, i < servers.length → ¬ attemptSucceeds env i) →
      exitStatus (Run env).outcome = some 0 ∧
        ∀ i, Event.monitoring i ∉ (Run env).events) := by
  constructor
  · intro h0
    rw [exitStatus_zero_iff] at h0
    have key : ∀ l n i, (failoverLoop env l n i).outcome = .returned →
        ((∃ x, Event.monitoring x ∈ (failoverLoop env l n i).events) ∧
          (∃ c ∈ env.commands, isQuit env c = true) ∧ env.disconnectOk = true) ∨
        ((∀ x, Event.monitoring x ∉ (failoverLoop env l n i).events) ∧
          ∀ x s, Event.connect x s ∈ (failoverLoop env l n i).events →
            ¬ attemptSucceeds env x) := by
      intro l n i hret
      rcases failoverLoop_monitoring env l n i with ⟨hx, ho⟩ | hno
      · rw [ho] at hret
        exact Or.inl ⟨hx, commandLoop_returned env env.commands hret⟩
      · exact Or.inr hno
    unfold Run at h0 ⊢
    cases hl : env.getList with
    | none => rw [hl] at h0; simp at h0
    | some servers =>
      rw [hl] at h0
      simp only [] at h0 ⊢
      cases hs : chooseSelection env with
      | error why => rw [hs] at h0; simp at h0
      | ok sel =>
        rw [hs] at h0
        simp only [] at h0 ⊢
        split at h0
        · simp at h0
        · rename_i hc
          rw [if_neg hc]
          exact key _ _ _ h0
  · intro servers sel hl hs hfound hnf hfail
    have hrun : Run env =
        failoverLoop env servers (servers.length - serverSelectedIndex sel servers)
          (serverSelectedIndex sel servers) := by
      simp only [Run, hl, hs]
      rcases hfound with h | h
      · simp [h]
      · simp [h]
    rw [hrun, exitStatus_zero_iff]
    have hk := serverSelectedIndex_le sel servers
    exact failoverLoop_all_fail env servers _ _ (by omega) hnf hfail

/-- C5 (amended), at a concrete input: the run with one server whose
connection fails. -/
theorem Run_status_zero_witness :
    exitStatus (Run allFailRun).outcome = some 0 ∧
      ∀ i, Event.monitoring i ∉ (Run allFailRun).events :=
  (Run_status_zero allFailRun).2 [serverNamed "S1"] "S1".toList rfl rfl
    (Or.inr (by decide))
    (fun _ _ => ⟨rfl, rfl, rfl, rfl, (by decide : Connect failingProcess ≠ .exited)⟩)
    (fun _ _ h => (by decide : Connect failingProcess ≠ .returned none) h.1)

/-- C10 (counterexample): with `--random` on servers `A`, `B`, every draw
being 0 and every connection failing, `vpn.Connect` is called twice for `A` and
never for `B`: the second attempt is not made on the server after the first
one, and no stretch of the list in list order gives the servers attempted. -/
theorem random_attempts_repeat :
    connectCalls (Run randomRun).events = [(0, serverNamed "A"), (1, serverNamed "A")] ∧
    ∀ r, ([serverNamed "A", serverNamed "B"].drop r).take 2 ≠
      (connectCalls (Run randomRun).events).map Prod.snd := by
  refine ⟨by decide, fun r => ?_⟩
  have h : (connectCalls (Run randomRun).events).map Prod.snd =
      [serverNamed "A", serverNamed "A"] := by decide
  rw [h]
  match r with
  | 0 => decide
  | 1 => decide
  | n + 2 => simp

/-- C10 (amended): with `--random` and non-empty host names, the loop variable
runs from 0 and a fresh random index is drawn in every iteration: the attempt of
iteration `i` is made on `list[r_i]`, where `r_i` is the draw of that iteration
reduced to the length of the list; at most as many attempts are made as the list
has servers. -/
theorem random_draw_every_attempt (env : RunEnv) (servers : List Server)
    (hl : env.getList = some servers) (hrand : env.flagRandom = true)
    (hne : ∀ s ∈ servers, s.HostName ≠ []) :
    ∃ m, m ≤ servers.length ∧
      connectCalls (Run env).events =
        (List.range' 0 m).map
          (fun i => (i, servers.getD ((env.attempt i).randIntn % servers.length) default)) := by
  have hno : ∀ s ∈ servers, stringsContains [] s.HostName = false := by
    intro s hs
    have := hne s hs
    cases hh : s.HostName with
    | nil => exact absurd hh this
    | cons c cs => rfl
  have hk : serverSelectedIndex [] servers = 0 :=
    serverSelectedIndexFrom_no_match [] servers 0 0 hno
  rw [Run_random env servers hl hrand, hk]
  obtain ⟨m, hm, hcalls, -, -⟩ :=
    failoverLoop_calls env servers (servers.length - 0) 0 (by omega)
  have hpick : (fun x => (x, pickServer env servers x)) =
      (fun i => (i, servers.getD ((env.attempt i).randIntn % servers.length) default)) := by
    funext x
    simp [pickServer, hrand]
  rw [hpick] at hcalls
  exact ⟨m, by omega, hcalls⟩

/-- C10 (amended), at a concrete input: the run on `A`, `B` in which every draw
is 0. -/
theorem random_draw_every_attempt_witness :
    ∃ m, m ≤ [serverNamed "A", serverNamed "B"].length ∧
      connectCalls (Run randomRun).events =
        (List.range' 0 m).map
          (fun i => (i, [serverNamed "A", serverNamed "B"].getD
            ((randomRun.attempt i).randIntn % [serverNamed "A", serverNamed "B"].length)
            default)) :=
  random_draw_every_attempt randomRun [serverNamed "A", serverNamed "B"] rfl rfl (by decide)

end Vpngate
